import Mathlib

/-!
Verification of the public list-serving and offer-click subsystem of the
genie_coupons repository (handpicked_backend + handpicked-client).

Shallow embedding: the JavaScript source functions are translated into
executable Lean definitions.  JavaScript strings are modelled as Lean
`String`/`List Char`, JS `null`/`undefined` as `Option`, JS numbers in the
relevant code paths as `Nat`/`Int` (the code only manipulates integral
values there), and thrown exceptions as `Except`/`Option`.  Each definition
cites the source file and lines it embeds.
-/

/-! ## JavaScript value helpers -/

/-- Truthiness filter for a JS string-or-null value: `null`, `undefined` and
the empty string are falsy. -/
def jsTruthyStr (v : Option String) : Option String :=
  match v with
  | none => none
  | some s => if s = "" then none else some s

/-- JS `a || b` on string-or-null values: returns `a` when truthy, else `b`. -/
def jsOrStr (a b : Option String) : Option String :=
  match jsTruthyStr a with
  | some s => some s
  | none => b

/-- Kernel-friendly `String.startsWith`: the pattern's characters are a
prefix of the string's characters. -/
def strStarts (pat s : String) : Bool :=
  pat.data.isPrefixOf s.data

/-! ## C1 — redirect priority (controllers/offers.js lines 225-237) -/

/-- Check from offers.js line 233: the candidate is an absolute http(s) URL. -/
def isHttpAbsolute (s : String) : Bool :=
  strStarts "http://" s || strStarts "https://" s

/-- Redirect computation translated from controllers/offers.js lines 225-237:
`serverRedirect = offer.redirect_url || null`,
`aff = merch.aff_url || merch.affl_url || null`, `web = merch.web_url || null`,
`pick = serverRedirect || aff || web || null`, and the result is `pick` when it
is an absolute http(s) URL, otherwise `null`.  Note the single `pick` followed
by one validity test: there is no per-candidate validation loop. -/
def computeRedirect (redirectUrl affUrl afflUrl webUrl : Option String) : Option String :=
  let serverRedirect := jsOrStr redirectUrl none
  let aff := jsOrStr affUrl (jsOrStr afflUrl none)
  let web := jsOrStr webUrl none
  let pick := jsOrStr serverRedirect (jsOrStr aff (jsOrStr web none))
  match pick with
  | some p => if isHttpAbsolute p then some p else none
  | none => none

/-- Claim C1's description of the redirect computation, written from the spec's
words: candidates are tried in priority order and a candidate is accepted only
if it is an absolute http(s) URL; when a higher-priority candidate is present
but not an absolute http(s) URL, the next priority is tried. -/
def computeRedirectClaimed (redirectUrl affUrl afflUrl webUrl : Option String) : Option String :=
  let candidates :=
    (jsTruthyStr redirectUrl).toList ++ (jsTruthyStr affUrl).toList ++
    (jsTruthyStr afflUrl).toList ++ (jsTruthyStr webUrl).toList
  candidates.find? isHttpAbsolute

/-! ## C2 — click rate limiter (controllers/offers.js lines 12-16 and 52-62) -/

/-- One entry of the click rate cache for a fixed (ip, offerId) key: the
stored request count together with the time (ms) at which the entry was last
written.  This models an lru-cache entry with per-entry ttl 60000 ms exactly
as offers.js uses it: every `set` stores a fresh value and restarts the
entry's ttl clock, and `get` misses once the entry is stale. -/
structure RateEntry where
  count : Nat
  lastSet : Nat
deriving Repr, DecidableEq

/-- Window length of the rate cache (offers.js line 14: ttl 60 * 1000). -/
def rateTTL : Nat := 60000

/-- Threshold from offers.js line 53: MAX_REQUESTS_PER_WINDOW = 12. -/
def maxRequestsPerWindow : Nat := 12

/-- `rateCache.get(key) || 0`: the stored count while the entry is live,
`0` once the entry is absent or its ttl has elapsed. -/
def rateGet (e : Option RateEntry) (now : Nat) : Nat :=
  match e with
  | some r => if now < r.lastSet + rateTTL then r.count else 0
  | none => 0

/-- One click attempt against the per-(ip, offerId) limiter, translated from
offers.js lines 55-62: `cur = (rateCache.get(key) || 0) + 1;
rateCache.set(key, cur);` and the request is rejected (429) iff
`cur > MAX_REQUESTS_PER_WINDOW`.  Returns the new entry and `true` when the
request is accepted. -/
def rateStep (e : Option RateEntry) (now : Nat) : Option RateEntry × Bool :=
  let cur := rateGet e now + 1
  (some ⟨cur, now⟩, decide (cur ≤ maxRequestsPerWindow))

/-- Run a sequence of click attempts (timestamps in ms, in arrival order) for
one fixed (ip, offerId) key, collecting the accept/reject outcome of each. -/
def rateRun (times : List Nat) : Option RateEntry × List Bool :=
  times.foldl
    (fun (acc : Option RateEntry × List Bool) t =>
      let s := rateStep acc.1 t
      (s.1, acc.2 ++ [s.2]))
    (none, [])

/-- State of claim C2's limiter model: a window anchored at the first counted
request. -/
structure FixedWindow where
  count : Nat
  windowStart : Nat
deriving Repr, DecidableEq

/-- Modelled from the spec (claim C2): a fixed 60-second window with
threshold 12 — "on each attempt, if no window exists or the window has
expired a new window starts with count 1, otherwise the count increments; a
request is rejected exactly when the post-increment count exceeds 12", the
window having expired when more than 60 s passed since its start (the claim:
a request 61 seconds after the first request of the window succeeds again). -/
def fixedWindowStep (e : Option FixedWindow) (now : Nat) : Option FixedWindow × Bool :=
  match e with
  | some w =>
    if now > w.windowStart + 60000 then
      (some ⟨1, now⟩, decide (1 ≤ maxRequestsPerWindow))
    else
      (some ⟨w.count + 1, w.windowStart⟩, decide (w.count + 1 ≤ maxRequestsPerWindow))
  | none => (some ⟨1, now⟩, decide (1 ≤ maxRequestsPerWindow))

/-- Run of the claim's fixed-window model over a sequence of attempts. -/
def fixedWindowRun (times : List Nat) : Option FixedWindow × List Bool :=
  times.foldl
    (fun (acc : Option FixedWindow × List Bool) t =>
      let s := fixedWindowStep acc.1 t
      (s.1, acc.2 ++ [s.2]))
    (none, [])

/-! ## C3 — composite offer-identifier resolution (controllers/offers.js lines 85-222) -/

/-- Lower-cased character, for the case-insensitive regexes of offers.js. -/
def lowerChar (c : Char) : Char := c.toLower

/-- Case-insensitive equality of a character list with a lowercase literal. -/
def ciEqLower (cs : List Char) (lit : List Char) : Bool :=
  cs.map lowerChar = lit

/-- Strip a lowercase literal prefix case-insensitively; `none` when `cs`
does not start (up to case) with `lit`. -/
def ciStripLower (lit : List Char) (cs : List Char) : Option (List Char) :=
  match lit, cs with
  | [], rest => some rest
  | _ :: _, [] => none
  | l :: ls, c :: rest => if lowerChar c = l then ciStripLower ls rest else none

/-- Split a character list at every dash, keeping empty pieces (the shape of
`\d+`-separated-by-dash regexes: no piece may contain a dash). -/
def splitDash : List Char → List (List Char)
  | [] => [[]]
  | c :: cs =>
    if c = '-' then [] :: splitDash cs
    else
      match splitDash cs with
      | h :: t => (c :: h) :: t
      | [] => [[c]]

/-- A nonempty all-digit character list (regex `\d+` anchored to the piece). -/
def isDigitsNE (cs : List Char) : Bool :=
  decide (cs ≠ []) && cs.all Char.isDigit

/-- Numeric value of an all-digit character list (the JS `Number(...)` applied
to a digit-only capture group). -/
def digitsToNat (cs : List Char) : Nat :=
  cs.foldl (fun acc c => acc * 10 + (c.toNat - 48)) 0

/-- The block kind captured by the `h2`/`h3` schemes. -/
inductive BlockKind where
  | h2
  | h3
deriving Repr, DecidableEq

/-- Outcome of the composite-identifier regex cascade of offers.js lines
90-122, as a tagged union: `trending` keeps its 1-based index, `block` its
0-based index, `merchantOnly` is the legacy pattern without an h-part.  The
merchant id is kept as its digit string, as the source does. -/
inductive ParsedOfferId where
  | trending (merchantId : String) (index1 : Nat)
  | block (kind : BlockKind) (merchantId : String) (index : Nat)
  | merchantOnly (merchantId : String)
deriving Repr, DecidableEq

/-- Merchant id carried by a parse result. -/
def ParsedOfferId.merchantId : ParsedOfferId → String
  | .trending m _ => m
  | .block _ m _ => m
  | .merchantOnly m => m

/-- Regex `^trending-(\d+)-(\d+)$/i` (offers.js line 92).  The literal and the
two digit groups cannot contain a dash, so the regex matches exactly when the
dash-split pieces are the literal followed by two digit groups. -/
def matchTrending (cs : List Char) : Option ParsedOfferId :=
  match splitDash cs with
  | [t, a, b] =>
    if ciEqLower t "trending".data && isDigitsNE a && isDigitsNE b then
      some (.trending (String.mk a) (digitsToNat b))
    else none
  | _ => none

/-- Regex `^(h[23])-(\d+)-(\d+)$/i` (offers.js line 100), with
`prefixMatch[1].toLowerCase()` selecting the kind. -/
def matchHBlock (cs : List Char) : Option ParsedOfferId :=
  match splitDash cs with
  | [k, a, b] =>
    if isDigitsNE a && isDigitsNE b then
      if ciEqLower k "h2".data then some (.block .h2 (String.mk a) (digitsToNat b))
      else if ciEqLower k "h3".data then some (.block .h3 (String.mk a) (digitsToNat b))
      else none
    else none
  | _ => none

/-- After `h` and its kind digit in the legacy regex: `[:\-]?(\d+)$` — an
optional separator followed by a final digit group.  (If a separator is
present the digits must follow it; regex backtracking over the optional
separator cannot recover, since `\d+` never matches `:` or `-`.) -/
def legacyTail (cs : List Char) : Option Nat :=
  match cs with
  | c :: rest =>
    if c = ':' || c = '-' then
      if isDigitsNE rest then some (digitsToNat rest) else none
    else if isDigitsNE cs then some (digitsToNat cs) else none
  | [] => none

/-- Legacy regex `^(?:merchant[:\-])?(\d+)(?:[:\-]h([23])[:\-]?(\d+))?$/i`
(offers.js lines 109-119).  The optional `merchant` prefix and the digit
start are disjoint (a digit never begins `merchant`), so the regex never
backtracks across the optional prefix; similarly `\d+` is followed by a
separator or the end, so its greediness is harmless. -/
def matchLegacy (cs : List Char) : Option ParsedOfferId :=
  let afterPfx :=
    match ciStripLower "merchant".data cs with
    | some (c :: rest) => if c = ':' || c = '-' then some rest else none
    | _ => none
  let body := afterPfx.getD cs
  let digits := body.takeWhile Char.isDigit
  let rest := body.dropWhile Char.isDigit
  if digits = [] then none
  else
    match rest with
    | [] => some (.merchantOnly (String.mk digits))
    | c :: rest2 =>
      if c = ':' || c = '-' then
        match rest2 with
        | h :: k :: rest3 =>
          if lowerChar h = 'h' then
            if k = '2' then (legacyTail rest3).map (.block .h2 (String.mk digits))
            else if k = '3' then (legacyTail rest3).map (.block .h3 (String.mk digits))
            else none
          else none
        | _ => none
      else none

/-- The full cascade of offers.js lines 90-122: trending first, then the
`h2`/`h3` prefix pattern, then the legacy pattern; the first match wins. -/
def parseOfferId (offerId : String) : Option ParsedOfferId :=
  match matchTrending offerId.data with
  | some p => some p
  | none =>
    match matchHBlock offerId.data with
    | some p => some p
    | none => matchLegacy offerId.data

/-- An embedded merchant content block (an element of `coupon_h2_blocks` /
`coupon_h3_blocks`); the fields the click handler reads. -/
structure MerchantBlock where
  heading : Option String
  description : Option String
  redirect_url : Option String
deriving Repr, DecidableEq

/-- The merchant row fields used by offers.js lines 136-210. -/
structure MerchantRow where
  id : Nat
  slug : String
  name : String
  aff_url : Option String
  web_url : Option String
  logo_url : Option String
  coupon_h2_blocks : List MerchantBlock
  coupon_h3_blocks : List MerchantBlock
deriving Repr, DecidableEq

/-- Block selection translated from offers.js lines 147-170: `trending`
indexes the concatenation h2-then-h3 with `Math.max(0, Number(index1 || 1) - 1)`
(so a 1-based index, with index1 = 0 clamped to the first block); `h2`/`h3`
index their own array 0-based; the legacy merchant-only form takes the first
h2 block, else the first h3 block. -/
def selectChosen (p : ParsedOfferId) (st : MerchantRow) : Option MerchantBlock :=
  match p with
  | .trending _ i1 =>
    let combined := st.coupon_h2_blocks ++ st.coupon_h3_blocks
    let idx0 := (if i1 = 0 then 1 else i1) - 1
    combined.get? idx0
  | .block k _ i =>
    (match k with
     | .h2 => st.coupon_h2_blocks
     | .h3 => st.coupon_h3_blocks).get? i
  | .merchantOnly _ =>
    match st.coupon_h2_blocks.head? with
    | some b => some b
    | none => st.coupon_h3_blocks.head?

/-- The merchant-block resolution path of offers.js lines 85-222 for an
identifier that did not resolve as a canonical coupon: parse the composite
id, fetch the merchant (the `StoresRepo.getById` / direct-supabase fallback
pair, modelled as one lookup environment `fetchStore`), select the block.
`none` is the 404 outcome ("Offer not found"). -/
def resolveBlock (fetchStore : String → Option MerchantRow) (offerId : String) :
    Option MerchantBlock :=
  match parseOfferId offerId with
  | none => none
  | some p =>
    match fetchStore p.merchantId with
    | none => none
    | some st => selectChosen p st

/-! ## Shared string-codec helpers (decimal, percent-encoding, UTF-8) -/

/-- Decimal digit character. -/
def digitChar (n : Nat) : Char := "0123456789".data.getD n '*'

/-- Uppercase hexadecimal digit character (JS `encodeURIComponent` emits
uppercase hex). -/
def hexDigitU (n : Nat) : Char := "0123456789ABCDEF".data.getD n '*'

/-- Fuelled decimal printer (fuel ≥ 1 + number of digits suffices). -/
def natDecimalAux : Nat → Nat → List Char
  | 0, _ => []
  | fuel + 1, n =>
    if n < 10 then [digitChar n]
    else natDecimalAux fuel (n / 10) ++ [digitChar (n % 10)]

/-- Decimal digit characters of a natural number (JS `String(n)` for an
integral non-negative number). -/
def natDecimal (n : Nat) : List Char := natDecimalAux (n + 1) n

/-- Decimal digit characters of an integer (JS `String(i)`). -/
def intDecimal : Int → List Char
  | .ofNat n => natDecimal n
  | .negSucc n => '-' :: natDecimal (n + 1)

/-- JS whitespace for `trim`/`parseInt` (the ASCII part; the code never feeds
other whitespace code points into these helpers). -/
def jsWS (c : Char) : Bool :=
  c = ' ' || c = '\t' || c = '\n' || c = '\r'

/-- JS `Number.parseInt(s, 10)`: skip leading whitespace, optional sign,
then the longest digit prefix; `none` models `NaN` (no digits). -/
def jsParseInt (s : String) : Option Int :=
  let cs := s.data.dropWhile jsWS
  let signBody : Bool × List Char :=
    match cs with
    | '-' :: r => (true, r)
    | '+' :: r => (false, r)
    | _ => (false, cs)
  let ds := signBody.2.takeWhile Char.isDigit
  if ds = [] then none
  else some ((if signBody.1 then -1 else 1) * (digitsToNat ds : Int))

/-- `Number.parseInt(v, 10) || 0` (cacheKey.js line 20): `NaN` becomes 0. -/
def jsParseIntOr0 (s : String) : Int :=
  match jsParseInt s with
  | none => 0
  | some i => i

/-- UTF-8 bytes of a code point (the encoding used by `encodeURIComponent`,
`Buffer.from(string)` and `URLSearchParams`). -/
def utf8Bytes (n : Nat) : List Nat :=
  if n < 0x80 then [n]
  else if n < 0x800 then [0xC0 + n / 0x40, 0x80 + n % 0x40]
  else if n < 0x10000 then
    [0xE0 + n / 0x1000, 0x80 + n / 0x40 % 0x40, 0x80 + n % 0x40]
  else
    [0xF0 + n / 0x40000, 0x80 + n / 0x1000 % 0x40, 0x80 + n / 0x40 % 0x40,
     0x80 + n % 0x40]

/-- UTF-8 bytes of a whole character list. -/
def utf8BytesOf (cs : List Char) : List Nat :=
  cs.foldr (fun c acc => utf8Bytes c.toNat ++ acc) []

/-- Percent-encoding of one byte: `%` followed by two uppercase hex digits. -/
def pctByte (b : Nat) : List Char :=
  ['%', hexDigitU (b / 16), hexDigitU (b % 16)]

/-- The characters `encodeURIComponent` leaves unescaped:
`A-Z a-z 0-9 - _ . ! ~ * ' ( )`. -/
def uriUnreserved (c : Char) : Bool :=
  (65 ≤ c.toNat && c.toNat ≤ 90) || (97 ≤ c.toNat && c.toNat ≤ 122) ||
  (48 ≤ c.toNat && c.toNat ≤ 57) ||
  c.toNat = 45 || c.toNat = 46 || c.toNat = 95 || c.toNat = 126 ||
  c.toNat = 33 || c.toNat = 42 || c.toNat = 39 || c.toNat = 40 || c.toNat = 41

/-- One character under `encodeURIComponent`: unreserved characters stand for
themselves, everything else becomes percent-encoded UTF-8 bytes. -/
def encChar (c : Char) : List Char :=
  if uriUnreserved c then [c]
  else (utf8Bytes c.toNat).foldr (fun b acc => pctByte b ++ acc) []

/-- `encodeURIComponent` over a character list. -/
def encChars (cs : List Char) : List Char :=
  cs.foldr (fun c acc => encChar c ++ acc) []

/-- JS `encodeURIComponent`. -/
def encodeURIComponent (s : String) : String := ⟨encChars s.data⟩

/-- The characters `URLSearchParams` serialization
(application/x-www-form-urlencoded) leaves unescaped: `A-Z a-z 0-9 * - . _`
(space becomes `+`). -/
def formSafe (c : Char) : Bool :=
  (65 ≤ c.toNat && c.toNat ≤ 90) || (97 ≤ c.toNat && c.toNat ≤ 122) ||
  (48 ≤ c.toNat && c.toNat ≤ 57) ||
  c.toNat = 42 || c.toNat = 45 || c.toNat = 46 || c.toNat = 95

/-- One character under form-urlencoding. -/
def formEncChar (c : Char) : List Char :=
  if c = ' ' then ['+']
  else if formSafe c then [c]
  else (utf8Bytes c.toNat).foldr (fun b acc => pctByte b ++ acc) []

/-- Form-urlencoding of a string (`URLSearchParams.toString` component). -/
def formEncode (s : String) : String :=
  ⟨s.data.foldr (fun c acc => formEncChar c ++ acc) []⟩

/-- Hex digit value of an uppercase-hex character; `none` otherwise.  (The
left inverse of `hexDigitU`, used to decode percent-encoded output.) -/
def hexValU (c : Char) : Option Nat :=
  if 48 ≤ c.toNat ∧ c.toNat ≤ 57 then some (c.toNat - 48)
  else if 65 ≤ c.toNat ∧ c.toNat ≤ 70 then some (c.toNat - 55)
  else none

/-- Decode a percent-encoded character stream back to bytes: a `%` is
followed by two hex digits, any other character must be unreserved and
stands for its own (ASCII) byte.  Left inverse of the percent-encoding
layer of `encChars`. -/
def pctDecBytes : List Char → Option (List Nat)
  | [] => some []
  | c :: cs =>
    if c = '%' then
      match cs with
      | h :: l :: rest =>
        match hexValU h, hexValU l, pctDecBytes rest with
        | some a, some b, some bs => some ((a * 16 + b) :: bs)
        | _, _, _ => none
      | _ => none
    else if uriUnreserved c then (pctDecBytes cs).map (c.toNat :: ·)
    else none

/-! ## C6 — pagination navigator (utils/pagination.js) -/

/-- JS `String.prototype.trim` on the character list. -/
def trimChars (cs : List Char) : List Char :=
  ((cs.dropWhile jsWS).reverse.dropWhile jsWS).reverse

/-- Strip all trailing slashes (regex `\/+$` replace with empty). -/
def stripTrailSlashes (cs : List Char) : List Char :=
  (cs.reverse.dropWhile (· = '/')).reverse

/-- Case-sensitive literal prefix strip. -/
def stripLit (lit cs : List Char) : Option (List Char) :=
  if lit.isPrefixOf cs then some (cs.drop lit.length) else none

/-- The optional version group `(\/v?\d+)?` of pagination.js line 20: a slash,
an optional `v`, then at least one digit; greedy, with the regex falling back
to not taking the group when it cannot complete. -/
def tryVersionGroup (cs : List Char) : Option (List Char) :=
  match cs with
  | '/' :: r2 =>
    match r2 with
    | 'v' :: r3 =>
      if r3.takeWhile Char.isDigit ≠ [] then some (r3.dropWhile Char.isDigit)
      else if r2.takeWhile Char.isDigit ≠ [] then some (r2.dropWhile Char.isDigit)
      else none
    | _ =>
      if r2.takeWhile Char.isDigit ≠ [] then some (r2.dropWhile Char.isDigit)
      else none
  | _ => none

/-- One application of regex `^\/(api|public)(\/v?\d+)?` (pagination.js
line 20): strip `/api` or `/public` plus an optional version segment. -/
def stripApiOnce (cs : List Char) : Option (List Char) :=
  match cs with
  | '/' :: rest =>
    match stripLit "api".data rest with
    | some r =>
      match tryVersionGroup r with
      | some r2 => some r2
      | none => some r
    | none =>
      match stripLit "public".data rest with
      | some r =>
        match tryVersionGroup r with
        | some r2 => some r2
        | none => some r
      | none => none
  | _ => none

/-- Exhaustive application of the prefix strip (pagination.js lines 20-23:
a single-strip replace followed by a repeated-group replace, together
equivalent to stripping while a prefix matches).  Fuelled by the list length;
every strip removes at least four characters. -/
def stripApiAll : Nat → List Char → List Char
  | 0, cs => cs
  | fuel + 1, cs =>
    match stripApiOnce cs with
    | some r => stripApiAll fuel r
    | none => cs

/-- Regex `\.json$/i` strip (pagination.js line 26). -/
def stripJsonSuffix (cs : List Char) : List Char :=
  if 5 ≤ cs.length && (cs.drop (cs.length - 5)).map lowerChar = ".json".data then
    cs.take (cs.length - 5)
  else cs

/-- `normalizePathToFrontend` translated from pagination.js lines 11-35:
drop the query string, strip API prefixes, strip `.json`, ensure a leading
slash, strip trailing slashes (except for the root), fall back when empty. -/
def normalizePathToFrontend (rawPath fallback : String) : String :=
  if rawPath = "" then fallback
  else
    let p := trimChars rawPath.data
    let p := p.takeWhile (· ≠ '?')
    let p := stripApiAll p.length p
    let p := stripJsonSuffix p
    let p := match p with
      | '/' :: _ => p
      | _ => '/' :: p
    let p := if p = ['/'] then p else stripTrailSlashes p
    if p = [] then fallback else String.mk p

/-- JS object property write on an ordered key/value list: replace in place
when the key exists (object keys are unique at the call sites), else append. -/
def objSet (m : List (String × Option String)) (k : String) (v : Option String) :
    List (String × Option String) :=
  if (m.lookup k).isSome then m.map (fun kv => if kv.1 = k then (k, v) else kv)
  else m ++ [(k, v)]

/-- `buildQueryString` translated from pagination.js lines 37-45:
`URLSearchParams`, skipping null/undefined/empty values, serialized as
form-urlencoded pairs; empty result yields no `?`. -/
def buildQueryString (paramsObj : List (String × Option String)) : String :=
  let pairs := paramsObj.foldl
    (fun (m : List (String × String)) kv =>
      match kv.2 with
      | none => m
      | some v =>
        if v = "" then m
        else if (m.lookup kv.1).isSome then
          m.map (fun p => if p.1 = kv.1 then (kv.1, v) else p)
        else m ++ [(kv.1, v)])
    []
  match pairs with
  | [] => ""
  | _ =>
    "?" ++ String.intercalate "&"
      (pairs.map (fun p => formEncode p.1 ++ "=" ++ formEncode p.2))

/-- The three environment values pagination.js reads (raw, before its own
trim / trailing-slash normalization). -/
structure PagEnv where
  publicApiBaseUrl : String
  publicSiteUrl : String
  publicBasePath : String
deriving Repr, DecidableEq

/-- `.toString().trim().replace(/\/+$/, "")` applied to an env value. -/
def envNormalize (s : String) : String :=
  String.mk (stripTrailSlashes (trimChars s.data))

/-- Result shape of `buildPrevNext`. -/
structure PrevNextResult where
  prev : Option String
  next : Option String
  totalPages : Nat
deriving Repr, DecidableEq

/-- `buildPrevNext` translated from pagination.js lines 50-109.  `page` is an
integer (the controllers pass validated integers); `limit`/`total` are
naturals, with the source's `Number(limit) || 1` and `Number(total) || 0`
guards kept.  `Math.ceil(total/limit)` on naturals is `(total + limit - 1) / limit`.
JS numeric truthiness (`prevPage ?`, `nextPage ?`) is the `= 0` test. -/
def buildPrevNext (env : PagEnv) (path : String) (page : Int) (limit : Nat)
    (total : Nat) (extraParams : List (String × Option String)) : PrevNextResult :=
  let limitD := if limit = 0 then 1 else limit
  let totalPages := max ((total + limitD - 1) / limitD) 1
  let frontendPath := normalizePathToFrontend path "/"
  let backendOrigin := envNormalize env.publicApiBaseUrl
  let makeRelUrl := fun (targetPage : Int) =>
    let ps := extraParams
    let ps :=
      if targetPage ≠ 0 ∧ targetPage > 1 then
        objSet ps "page" (some (String.mk (intDecimal targetPage)))
      else ps
    let ps :=
      if limit ≠ 0 ∧ limit ≠ 20 then
        objSet ps "limit" (some (String.mk (natDecimal limit)))
      else ps
    let rel := frontendPath ++ buildQueryString ps
    if backendOrigin ≠ "" then backendOrigin ++ rel else rel
  let canonicalOrigin := envNormalize env.publicSiteUrl
  let basePath := envNormalize env.publicBasePath
  let maybeAbsolute := fun (rel : String) =>
    if rel = "" then none
    else if canonicalOrigin ≠ "" then some (canonicalOrigin ++ basePath ++ rel)
    else some rel
  let prevPage : Option Int := if page > 1 then some (page - 1) else none
  let nextPage : Option Int := if page < (totalPages : Int) then some (page + 1) else none
  { prev :=
      match prevPage with
      | some pp =>
        if pp = 0 then none
        else if backendOrigin ≠ "" then some (makeRelUrl pp)
        else maybeAbsolute (makeRelUrl pp)
      | none => none
    next :=
      match nextPage with
      | some np =>
        if np = 0 then none
        else if backendOrigin ≠ "" then some (makeRelUrl np)
        else maybeAbsolute (makeRelUrl np)
      | none => none
    totalPages := totalPages }

/-! ## C4/C10 — cache key builder (utils/cacheKey.js) -/

/-- The fixed canonical field order of cacheKey.js lines 4-14.  Note that it
contains nine names: `categorySlug` sits between `category` and `type`. -/
def cacheFieldNames : List String :=
  ["page", "limit", "q", "category", "categorySlug", "type", "sort", "locale", "status"]

/-- One `name=value` part of the cache key (cacheKey.js lines 16-23): a field
present in the bag is pushed as `k=encodeURIComponent(v)` with page/limit
first coerced through `parseInt(v,10) || 0`; an absent field is pushed as
`k=`. -/
def cacheKeyPart (params : List (String × String)) (k : String) : String :=
  match List.lookup k params with
  | some v =>
    let v2 :=
      if k = "page" || k = "limit" then String.mk (intDecimal (jsParseIntOr0 v)) else v
    k ++ "=" ++ encodeURIComponent v2
  | none => k ++ "="

/-- `parts.join("|")`. -/
def joinBar : List String → String
  | [] => ""
  | [x] => x
  | x :: xs => x ++ "|" ++ joinBar xs

/-- `makeListCacheKey` translated from utils/cacheKey.js: the prefix followed
by the nine ordered `name=value` parts, joined by `|`.  The parameter bag is
an ordered key/value list (a JS object literal); the builder reads it only
through key-presence and lookup. -/
def makeListCacheKey (pfx : String) (params : List (String × String)) : String :=
  joinBar (pfx :: cacheFieldNames.map (cacheKeyPart params))

/-- The normalized value a field contributes to the key: absent fields
contribute the empty string, page/limit contribute their integer coercion
(`parseInt || 0`), other present fields contribute their raw value. -/
def cacheNorm (params : List (String × String)) (k : String) : String :=
  match List.lookup k params with
  | some v =>
    if k = "page" || k = "limit" then String.mk (intDecimal (jsParseIntOr0 v)) else v
  | none => ""

/-! ## C8 — cursor codec (dbhelper/CouponsRepoPublic.js lines 35-55) -/

/-- Lowercase hexadecimal digit character (JSON escape sequences). -/
def hexDigitL (n : Nat) : Char := "0123456789abcdef".data.getD n '*'

/-- The standard base64 alphabet used by `Buffer.toString("base64")`. -/
def b64Alphabet : List Char :=
  "ABCDEFGHIJKLMNOPQRSTUVWXYZabcdefghijklmnopqrstuvwxyz0123456789+/".data

/-- Character of a 6-bit group. -/
def b64Char (i : Nat) : Char := b64Alphabet.getD i 'A'

/-- 6-bit value of a base64 character; `none` for a non-alphabet character. -/
def b64Val (c : Char) : Option Nat := b64Alphabet.indexOf? c

/-- Base64 encoding of a byte list with `=` padding
(`Buffer.from(bytes).toString("base64")`). -/
def b64encodeBytes : List Nat → List Char
  | [] => []
  | [b1] => [b64Char (b1 / 4), b64Char (b1 % 4 * 16), '=', '=']
  | [b1, b2] =>
    [b64Char (b1 / 4), b64Char (b1 % 4 * 16 + b2 / 16), b64Char (b2 % 16 * 4), '=']
  | b1 :: b2 :: b3 :: rest =>
    b64Char (b1 / 4) :: b64Char (b1 % 4 * 16 + b2 / 16) ::
    b64Char (b2 % 16 * 4 + b3 / 64) :: b64Char (b3 % 64) :: b64encodeBytes rest

/-- Base64 decoding (`Buffer.from(token, "base64")`), modelled strictly:
a malformed token yields `none` where Node would skip invalid characters —
both end in a `JSON.parse` failure, i.e. a `null` cursor. -/
def b64decodeChars : List Char → Option (List Nat)
  | [] => some []
  | a :: b :: c :: d :: rest =>
    match b64Val a, b64Val b with
    | some va, some vb =>
      if c = '=' then
        if d = '=' ∧ rest = [] then some [va * 4 + vb / 16] else none
      else
        match b64Val c with
        | some vc =>
          if d = '=' then
            if rest = [] then some [va * 4 + vb / 16, vb % 16 * 16 + vc / 4] else none
          else
            match b64Val d, b64decodeChars rest with
            | some vd, some bs =>
              some ((va * 4 + vb / 16) :: (vb % 16 * 16 + vc / 4) :: (vc % 4 * 64 + vd) :: bs)
            | _, _ => none
        | none => none
    | _, _ => none
  | _ => none

/-- JSON string escaping of one character, as `JSON.stringify` performs it:
quote and backslash get a backslash escape, the common control characters get
their short escapes, other control characters get `\u00xx`, everything else
stands for itself. -/
def jsonEscapeChar (c : Char) : List Char :=
  if c = '"' then ['\\', '"']
  else if c = '\\' then ['\\', '\\']
  else if c.toNat = 8 then ['\\', 'b']
  else if c.toNat = 9 then ['\\', 't']
  else if c.toNat = 10 then ['\\', 'n']
  else if c.toNat = 12 then ['\\', 'f']
  else if c.toNat = 13 then ['\\', 'r']
  else if c.toNat < 32 then
    ['\\', 'u', '0', '0', hexDigitL (c.toNat / 16), hexDigitL (c.toNat % 16)]
  else [c]

/-- JSON string escaping of a character list. -/
def jsonEscape (cs : List Char) : List Char :=
  cs.foldr (fun c acc => jsonEscapeChar c ++ acc) []

/-- The payload carried by an opaque cursor: `{id, key}`. -/
structure CursorPayload where
  id : Nat
  key : Option String
deriving Repr, DecidableEq

/-- `JSON.stringify({id, key})` for the cursor payload (property order as in
the literal at CouponsRepoPublic.js lines 39-42). -/
def jsonOfPayload (p : CursorPayload) : List Char :=
  '\x7b' :: ("\"id\":".data ++ natDecimal p.id ++ ",\"key\":".data ++
    (match p.key with
     | none => "null".data
     | some s => '"' :: (jsonEscape s.data ++ ['"'])) ++ ['\x7d'])

/-- The row fields the cursor encoder reads (CouponsRepoPublic.js lines
38-43): primary key plus the two candidate secondary ordering fields. -/
structure CursorSrcRow where
  id : Nat
  ends_at : Option String
  published_at : Option String
deriving Repr, DecidableEq

/-- `encodeCursor` translated from CouponsRepoPublic.js lines 35-47: `null`
for a null row, otherwise base64 of the JSON payload
`{id: row.id, key: row.ends_at || row.published_at || null}`. -/
def encodeCursor (row : Option CursorSrcRow) : Option String :=
  match row with
  | none => none
  | some r =>
    let payload : CursorPayload := ⟨r.id, jsOrStr r.ends_at (jsOrStr r.published_at none)⟩
    some (String.mk (b64encodeBytes (utf8BytesOf (jsonOfPayload payload))))

/-- Code points of a string literal. -/
def codesOf (s : String) : List Nat := s.data.map Char.toNat

/-- Strip an expected literal (as code points). -/
def stripCodes (lit ns : List Nat) : Option (List Nat) :=
  if lit.isPrefixOf ns then some (ns.drop lit.length) else none

/-- Parse a nonempty decimal digit run (as code points). -/
def parseNatCodes (ns : List Nat) : Option (Nat × List Nat) :=
  let ds := ns.takeWhile (fun n => 48 ≤ n && n ≤ 57)
  if ds = [] then none
  else some (ds.foldl (fun acc d => acc * 10 + (d - 48)) 0,
             ns.dropWhile (fun n => 48 ≤ n && n ≤ 57))

/-- Hex digit value of a code point. -/
def hexValCode (n : Nat) : Option Nat :=
  if 48 ≤ n ∧ n ≤ 57 then some (n - 48)
  else if 97 ≤ n ∧ n ≤ 102 then some (n - 87)
  else if 65 ≤ n ∧ n ≤ 70 then some (n - 55)
  else none

/-- Parse a JSON string body (after the opening quote) up to its closing
quote, understanding the escapes `jsonEscapeChar` can produce. -/
def parseJsonStringCodes : List Nat → Option (List Char × List Nat)
  | [] => none
  | c :: rest =>
    if c = 34 then some ([], rest)
    else if c = 92 then
      match rest with
      | [] => none
      | e :: rest2 =>
        if e = 34 then (parseJsonStringCodes rest2).map (fun pr => ('"' :: pr.1, pr.2))
        else if e = 92 then (parseJsonStringCodes rest2).map (fun pr => ('\\' :: pr.1, pr.2))
        else if e = 98 then (parseJsonStringCodes rest2).map (fun pr => (Char.ofNat 8 :: pr.1, pr.2))
        else if e = 116 then (parseJsonStringCodes rest2).map (fun pr => (Char.ofNat 9 :: pr.1, pr.2))
        else if e = 110 then (parseJsonStringCodes rest2).map (fun pr => (Char.ofNat 10 :: pr.1, pr.2))
        else if e = 102 then (parseJsonStringCodes rest2).map (fun pr => (Char.ofNat 12 :: pr.1, pr.2))
        else if e = 114 then (parseJsonStringCodes rest2).map (fun pr => (Char.ofNat 13 :: pr.1, pr.2))
        else if e = 117 then
          match rest2 with
          | h1 :: h2 :: h3 :: h4 :: rest3 =>
            match hexValCode h1, hexValCode h2, hexValCode h3, hexValCode h4 with
            | some x1, some x2, some x3, some x4 =>
              (parseJsonStringCodes rest3).map
                (fun pr => (Char.ofNat (x1 * 4096 + x2 * 256 + x3 * 16 + x4) :: pr.1, pr.2))
            | _, _, _, _ => none
          | _ => none
        else none
    else (parseJsonStringCodes rest).map (fun pr => (Char.ofNat c :: pr.1, pr.2))

/-- Parse the cursor payload JSON (the shape `JSON.stringify` produced for
`{id, key}`; anything else is a parse failure, i.e. a `null` cursor). -/
def parseJsonPayloadCodes (ns : List Nat) : Option CursorPayload :=
  match stripCodes (codesOf "\x7b\"id\":") ns with
  | none => none
  | some r1 =>
    match parseNatCodes r1 with
    | none => none
    | some (idv, r2) =>
      match stripCodes (codesOf ",\"key\":") r2 with
      | none => none
      | some r3 =>
        match stripCodes (codesOf "null") r3 with
        | some r4 => if r4 = [0x7d] then some ⟨idv, none⟩ else none
        | none =>
          match r3 with
          | 34 :: r4 =>
            match parseJsonStringCodes r4 with
            | some (chars, r5) =>
              if r5 = [0x7d] then some ⟨idv, some (String.mk chars)⟩ else none
            | none => none
          | _ => none

/-- Decode one UTF-8 encoded code point from the front of a byte list. -/
def utf8Dec1 (bs : List Nat) : Option (Nat × List Nat) :=
  match bs with
  | [] => none
  | b :: rest =>
    if b < 0x80 then some (b, rest)
    else if b < 0xC0 then none
    else if b < 0xE0 then
      match rest with
      | b1 :: rest1 =>
        if 0x80 ≤ b1 ∧ b1 < 0xC0 then
          some ((b - 0xC0) * 0x40 + (b1 - 0x80), rest1)
        else none
      | [] => none
    else if b < 0xF0 then
      match rest with
      | b1 :: b2 :: rest2 =>
        if (0x80 ≤ b1 ∧ b1 < 0xC0) ∧ (0x80 ≤ b2 ∧ b2 < 0xC0) then
          some ((b - 0xE0) * 0x1000 + (b1 - 0x80) * 0x40 + (b2 - 0x80), rest2)
        else none
      | _ => none
    else if b < 0xF8 then
      match rest with
      | b1 :: b2 :: b3 :: rest3 =>
        if (0x80 ≤ b1 ∧ b1 < 0xC0) ∧ (0x80 ≤ b2 ∧ b2 < 0xC0) ∧ (0x80 ≤ b3 ∧ b3 < 0xC0) then
          some ((b - 0xF0) * 0x40000 + (b1 - 0x80) * 0x1000 + (b2 - 0x80) * 0x40 +
                (b3 - 0x80), rest3)
        else none
      | _ => none
    else none

/-- Decode a whole byte list into code points (fuelled; the byte count is
always enough fuel since every step consumes at least one byte). -/
def utf8DecAllAux : Nat → List Nat → Option (List Nat)
  | _, [] => some []
  | 0, _ :: _ => none
  | fuel + 1, bs =>
    match utf8Dec1 bs with
    | some (n, rest) => (utf8DecAllAux fuel rest).map (n :: ·)
    | none => none

/-- Decode percent-encoded text to the code points of the original string
(bytes, then UTF-8).  Left inverse of `encChars`. -/
def percentDecodeCodes (cs : List Char) : Option (List Nat) :=
  (pctDecBytes cs).bind (fun bs => utf8DecAllAux bs.length bs)

/-- `decodeCursor` translated from CouponsRepoPublic.js lines 48-55: a falsy
token is `null`; otherwise base64-decode, UTF-8-decode and JSON-parse, any
failure yielding `null`. -/
def decodeCursor (c : Option String) : Option CursorPayload :=
  match c with
  | none => none
  | some s =>
    if s = "" then none
    else
      match b64decodeChars s.data with
      | none => none
      | some bytes =>
        match utf8DecAllAux bytes.length bytes with
        | none => none
        | some codes => parseJsonPayloadCodes codes

/-! ## C9 — cursor-mode list query (dbhelper/CouponsRepoPublic.js lines 151-233) -/

/-- The joined merchant columns of the coupons selects. -/
structure MerchantJoin where
  slug : String
  name : String
  logo_url : Option String
deriving Repr, DecidableEq

/-- A raw coupons row as returned by the store for the default/cursor select
list (CouponsRepoPublic.js line 159). -/
structure RawCouponRow where
  id : Nat
  coupon_type : String
  title : String
  description : String
  type_text : Option String
  coupon_code : Option String
  ends_at : Option String
  show_proof : Option Bool
  proof_image_url : Option String
  is_editor : Option Bool
  click_count : Option Nat
  merchant_id : Option Nat
  merchants : Option MerchantJoin
deriving Repr, DecidableEq

/-- The mapped public row shape (CouponsRepoPublic.js lines 194-215). -/
structure PublicCouponRow where
  id : Nat
  title : String
  code : Option String
  ends_at : Option String
  merchant_id : Option Nat
  coupon_type : String
  description : String
  type_text : Option String
  show_proof : Bool
  proof_image_url : Option String
  is_editor : Bool
  click_count : Nat
  merchant : Option MerchantJoin
  merchant_name : Option String
deriving Repr, DecidableEq

/-- JS `x || null` on an optional number (0 is falsy). -/
def jsTruthyNat (o : Option Nat) : Option Nat :=
  match o with
  | some n => if n = 0 then none else some n
  | none => none

/-- Row mapping of CouponsRepoPublic.js lines 194-215. -/
def mapRawRow (r : RawCouponRow) : PublicCouponRow :=
  { id := r.id
    title := r.title
    code := if r.coupon_type = "coupon" then jsTruthyStr r.coupon_code else none
    ends_at := r.ends_at
    merchant_id := jsTruthyNat r.merchant_id
    coupon_type := r.coupon_type
    description := r.description
    type_text := r.type_text
    show_proof := r.show_proof.getD false
    proof_image_url := jsTruthyStr r.proof_image_url
    is_editor := r.is_editor.getD false
    click_count := r.click_count.getD 0
    merchant := r.merchants
    merchant_name := r.merchants.map (·.name) }

/-- A supabase coupons query as the repo builds it, reified as data: the
filter, ordering, limit and range clauses attached to the builder. -/
structure QueryDesc where
  eqPublish : Bool
  ilikeTitle : Option String
  eqMerchantId : Option Nat
  eqCouponType : Option String
  statusOrOpenEnded : Bool
  inMerchantIds : Option (List Nat)
  ltId : Option Nat
  orderKeys : List (String × Bool)
  limitN : Option Nat
  rangeFromTo : Option (Nat × Nat)
deriving Repr, DecidableEq

/-- The parameters `CouponsRepo.list` destructures (cursor path). -/
structure RepoListParams where
  q : String
  type : String
  status : String
  page : Nat
  limit : Nat
deriving Repr, DecidableEq

/-- `_limit = Math.min(Math.max(Number(limit) || 20, 1), 100)` (line 31). -/
def clampLimit (limit : Nat) : Nat :=
  min (max (if limit = 0 then 20 else limit) 1) 100

/-- `_page = Math.max(Number(page) || 1, 1)` (line 32). -/
def clampPage (page : Nat) : Nat :=
  max (if page = 0 then 1 else page) 1

/-- The cursor-mode query built at CouponsRepoPublic.js lines 156-189:
publish filter, id-descending order, `limit(_limit)` (no range), the keyset
`lt("id", decoded.id)` when the cursor decoded to a truthy id, then the same
filter predicates as offset mode.  `merchantId` is the store-slug resolution
result and `catIds` the category merchant-id resolution result (each a store
round-trip; `catIds` is applied only when present and nonempty, as at lines
178-189). -/
def cursorQueryDesc (p : RepoListParams) (merchantId : Option Nat)
    (catIds : Option (List Nat)) (decoded : Option CursorPayload) : QueryDesc :=
  { eqPublish := true
    ilikeTitle := if p.q ≠ "" then some p.q else none
    eqMerchantId := jsTruthyNat merchantId
    eqCouponType := if p.type ≠ "" ∧ p.type ≠ "all" then some p.type else none
    statusOrOpenEnded := p.status ≠ "all"
    inMerchantIds :=
      match catIds with
      | some ids => if ids ≠ [] then some ids else none
      | none => none
    ltId :=
      match decoded with
      | some d => if d.id ≠ 0 then some d.id else none
      | none => none
    orderKeys := [("id", false)]
    limitN := some (clampLimit p.limit)
    rangeFromTo := none }

/-- Whether a row of the coupons table passes a query's row-level filters
(the store's semantics of the reified clauses; the free-text and category
filters are kept abstract through the row's own fields). -/
def rowPassesLt (qd : QueryDesc) (rowId : Nat) : Bool :=
  match qd.ltId with
  | some n => rowId < n
  | none => true

/-- Result meta of `CouponsRepo.list`. -/
structure RepoMeta where
  page : Nat
  limit : Nat
  total : Option Nat
  next_cursor : Option String := none
  prev_cursor : Option String := none
  has_more : Option Bool := none
deriving Repr, DecidableEq

/-- Result of `CouponsRepo.list`. -/
structure RepoListResult where
  data : List PublicCouponRow
  meta : RepoMeta
deriving Repr, DecidableEq

/-- The cursor-mode branch of `CouponsRepo.list` (lines 153-233): build the
keyset query, run it against the store (`fetch`, which may fail — `if (error)
throw error`), map the rows, encode the next cursor from the last returned
row, and report `total: null`, `has_more = (rows.length === _limit)`. -/
def listCursorMode (p : RepoListParams) (cursorStr : String)
    (merchantId : Option Nat) (catIds : Option (List Nat))
    (fetch : QueryDesc → Except String (List RawCouponRow)) :
    Except String RepoListResult :=
  let decoded := decodeCursor (some cursorStr)
  let qd := cursorQueryDesc p merchantId catIds decoded
  match fetch qd with
  | .error e => .error e
  | .ok data =>
    let rows := data.map mapRawRow
    let lastRow := rows.getLast?
    let nextCursor := encodeCursor (lastRow.map (fun r => ⟨r.id, r.ends_at, none⟩))
    .ok
      { data := rows
        meta :=
          { page := clampPage p.page
            limit := clampLimit p.limit
            total := none
            next_cursor := nextCursor
            prev_cursor := none
            has_more := some (decide (rows.length = clampLimit p.limit)) } }

/-! ## C5/C10 — coupons list controller (controllers/publicCoupons.js) -/

/-- Modelled from the spec (§4.2 TTL Result Cache): the `withCache` helper of
utils/cache.js is not under src/.  `getOrCompute(key, ttl, producer)`: a hit
with `now < expiresAt` returns the stored value without invoking the
producer; on a miss or expiry the producer runs, a successful value is stored
with `expiresAt = now + ttl` and returned, and a failing producer leaves the
key absent and propagates its error. -/
def cacheLookup {α : Type} (st : List (String × α × Nat)) (key : String) (now : Nat) :
    Option α :=
  match st.find? (fun e => e.1 = key) with
  | some e => if now < e.2.2 then some e.2.1 else none
  | none => none

/-- Validated parameters of the coupons list controller
(publicCoupons.js lines 31-63). -/
structure CouponsListParams where
  q : String
  categorySlug : String
  storeSlug : String
  type : String
  status : String
  sort : String
  locale : String
  page : Nat
  limit : Nat
  cursor : Option String
deriving Repr, DecidableEq

/-- The cache key the coupons controller builds (publicCoupons.js lines
66-76): prefix `coupons` and a bag holding page, limit, q, category (from the
category slug), sort, locale and type — the store slug, the status and the
cursor are not passed to the key builder. -/
def couponsCacheKey (p : CouponsListParams) : String :=
  makeListCacheKey "coupons"
    [("page", String.mk (natDecimal p.page)),
     ("limit", String.mk (natDecimal p.limit)),
     ("q", p.q),
     ("category", p.categorySlug),
     ("sort", p.sort),
     ("locale", p.locale),
     ("type", p.type)]

/-- The meta object of the controller's list payload (the `canonical` and
`jsonld` fields, which no claim mentions, are elided). -/
structure CtrlMeta where
  page : Nat
  limit : Nat
  total : Option Nat
  next_cursor : Option String := none
  prev_cursor : Option String := none
  has_more : Option Bool := none
  prev : Option String := none
  next : Option String := none
  total_pages : Nat := 1
deriving Repr, DecidableEq

/-- The controller's list payload. -/
structure CtrlPayload where
  data : List PublicCouponRow
  meta : CtrlMeta
deriving Repr, DecidableEq

/-- `s || undefined` (the extraParams construction at lines 102-110). -/
def jsUndefIfEmpty (s : String) : Option String :=
  if s = "" then none else some s

/-- The producer the coupons controller hands to the cache (publicCoupons.js
lines 83-188).  `repoOutcome` is the outcome of the `CouponsRepo.list` store
round-trip; `urlps` models the WHATWG `new URL(u, base)` parse as
pathname/search extraction, `none` standing for its `catch` branch.  On any
repo error the catch at lines 173-188 produces the degraded payload: empty
rows, total 0, no links, one page. -/
def couponsListProducer (urlps : String → Option (String × String)) (env : PagEnv)
    (path : String) (p : CouponsListParams)
    (repoOutcome : Except String RepoListResult) : CtrlPayload :=
  match repoOutcome with
  | .error _ =>
    { data := []
      meta :=
        { page := p.page, limit := p.limit, total := some 0
          prev := none, next := none, total_pages := 1 } }
  | .ok r =>
    let meta := r.meta
    let nav := buildPrevNext env path (p.page : Int) p.limit (meta.total.getD 0)
      [("q", jsUndefIfEmpty p.q),
       ("category", jsUndefIfEmpty p.categorySlug),
       ("store", jsUndefIfEmpty p.storeSlug),
       ("type", some p.type),
       ("status", some p.status),
       ("sort", some p.sort),
       ("locale", jsUndefIfEmpty p.locale)]
    let backendBase := envNormalize env.publicApiBaseUrl
    let apiNext : Option String :=
      if backendBase ≠ "" then
        match jsTruthyStr meta.next_cursor with
        | some nc =>
          some (backendBase ++ "/coupons?cursor=" ++ encodeURIComponent nc ++
            "&limit=" ++ String.mk (natDecimal (if meta.limit = 0 then p.limit else meta.limit)))
        | none =>
          match jsTruthyStr nav.next with
          | some s =>
            match urlps s with
            | some ps => some (backendBase ++ ps.1 ++ ps.2)
            | none => some s
          | none => none
      else nav.next
    let apiPrev : Option String :=
      if backendBase ≠ "" then
        match jsTruthyStr meta.prev_cursor with
        | some pc =>
          some (backendBase ++ "/coupons?cursor=" ++ encodeURIComponent pc ++
            "&limit=" ++ String.mk (natDecimal (if meta.limit = 0 then p.limit else meta.limit)))
        | none =>
          match jsTruthyStr nav.prev with
          | some s =>
            match urlps s with
            | some ps => some (backendBase ++ ps.1 ++ ps.2)
            | none => some s
          | none => none
      else nav.prev
    { data := r.data
      meta :=
        { page := meta.page, limit := meta.limit, total := meta.total
          next_cursor := meta.next_cursor, prev_cursor := meta.prev_cursor
          has_more := meta.has_more
          prev := jsTruthyStr apiPrev
          next := jsTruthyStr apiNext
          total_pages := nav.totalPages } }

/-- Modelled from the spec (§4.2, §6): `withCache` plus the `ok` helper of
utils/http.js (both absent from src/): the endpoint returns the cached or
freshly produced payload with HTTP status 200; a hit is served while
`now < expiresAt`, a miss stores the produced value with
`expiresAt = now + ttlSeconds`. -/
def couponsListEndpoint (urlps : String → Option (String × String)) (env : PagEnv)
    (path : String) (p : CouponsListParams)
    (cache : List (String × CtrlPayload × Nat)) (now ttlSeconds : Nat)
    (repoOutcome : Except String RepoListResult) :
    List (String × CtrlPayload × Nat) × Nat × CtrlPayload :=
  let key := couponsCacheKey p
  match cacheLookup cache key now with
  | some v => (cache, 200, v)
  | none =>
    let v := couponsListProducer urlps env path p repoOutcome
    ((key, v, now + ttlSeconds) :: cache, 200, v)

/-! ## C7 — click accounting (controllers/offers.js 239-249, CouponsRepoPublic.js 501-523) -/

/-- Modelled from the spec (§4.8): the Postgres function
`increment_coupon_click_count(p_id)` invoked through `supabase.rpc` — an
atomic store-side increment of that coupon's `click_count`, returning the new
value.  The SQL body lives in the database, not under src/. -/
def rpcIncrementClickCount (db : Nat → Nat) (pid : Nat) : (Nat → Nat) × Nat :=
  let newCount := db pid + 1
  (fun k => if k = pid then newCount else db k, newCount)

/-- `incrementClickCount` translated from CouponsRepoPublic.js lines 501-523:
a single rpc call (no caller-side read-modify-write), returning the new
count. -/
def incrementClickCount (db : Nat → Nat) (offerKey : Nat) : (Nat → Nat) × Nat :=
  rpcIncrementClickCount db offerKey

/-- The click-accounting step of offers.js lines 239-249: only a click whose
resolution source is `"coupon"` (a canonical stored coupon) touches the
store's counters; a merchant-block (synthetic) click intentionally does not. -/
def clickAccountingStep (source : String) (db : Nat → Nat) (offerKey : Nat) :
    Nat → Nat :=
  if source = "coupon" then (incrementClickCount db offerKey).1 else db

/-! ## Claim-support definitions -/

/-- First truthy candidate of a priority list (JS `a || b || c || null`). -/
def firstTruthyCandidate : List (Option String) → Option String
  | [] => none
  | c :: rest =>
    match jsTruthyStr c with
    | some s => some s
    | none => firstTruthyCandidate rest

/-- The amended description of the redirect computation: the first truthy
candidate in priority order is picked, and the result is that candidate when
it is an absolute http(s) URL and null otherwise — later candidates are not
consulted when a truthy higher-priority candidate fails the URL test. -/
def computeRedirectAmended (redirectUrl affUrl afflUrl webUrl : Option String) :
    Option String :=
  match firstTruthyCandidate [redirectUrl, affUrl, afflUrl, webUrl] with
  | some p => if isHttpAbsolute p then some p else none
  | none => none

/-- A sample embedded block distinguished by its heading. -/
def sampleBlock (tag : String) : MerchantBlock := ⟨some tag, none, none⟩

/-- The merchant of the claim's concrete scenario: id 42 with two h2 blocks
and three h3 blocks. -/
def merchant42 : MerchantRow :=
  ⟨42, "m42", "Merchant42", none, none, none,
   [sampleBlock "h2-0", sampleBlock "h2-1"],
   [sampleBlock "h3-0", sampleBlock "h3-1", sampleBlock "h3-2"]⟩

/-- A store lookup environment holding exactly `merchant42` under id 42. -/
def merchantEnv42 : String → Option MerchantRow :=
  fun i => if i = "42" then some merchant42 else none

/-! # Theorems -/

/-- Claim C1, counterexample: the claim says that for an offer with
offerRedirect null, affUrl "ftp://x" and webUrl "https://w" the chosen
redirect is "https://w" (a non-http(s) candidate is skipped and the next
priority tried).  The code instead picks the first truthy candidate
("ftp://x"), finds it non-http(s), and returns null — it never tries the
website URL.  `computeRedirectClaimed` is the claim's own description and
does return "https://w" here. -/
theorem claim_C1_counterexample :
    computeRedirect none (some "ftp://x") none (some "https://w") = none ∧
    computeRedirect none (some "ftp://x") none (some "https://w") ≠ some "https://w" ∧
    computeRedirectClaimed none (some "ftp://x") none (some "https://w") = some "https://w" :=
  ⟨by decide, by decide, by decide⟩

/-- Claim C1, amended: the click handler picks the first truthy candidate in
priority order — offer-specific redirect, merchant affiliate URL (aff_url
then affl_url), merchant website URL — and the chosen redirect is that
candidate when it is an absolute http(s) URL and null otherwise; when the
first truthy candidate is not an absolute http(s) URL the remaining
priorities are not tried.  In particular, for offerRedirect null,
affUrl "https://a", webUrl "https://w" the chosen redirect is "https://a". -/
theorem claim_C1_amended :
    (∀ r a al w, computeRedirect r a al w = computeRedirectAmended r a al w) ∧
    computeRedirect none (some "https://a") none (some "https://w") = some "https://a" := by
  constructor
  · intro r a al w
    cases r <;> cases a <;> cases al <;> cases w <;>
      simp [computeRedirect, computeRedirectAmended, firstTruthyCandidate, jsOrStr,
        jsTruthyStr] <;> split_ifs <;> simp_all
  · decide

/-- Claim C2, counterexample: eleven clicks at t = 0 ms and a twelfth at
t = 30000 ms all succeed; the claim ("a request at +61s — 61 seconds after
the first request of the window — succeeds again") then requires the request
at t = 61000 ms to succeed, and the claim's own fixed-window model
(`fixedWindowRun`) indeed accepts it; the code rejects it, because the write
at t = 30000 ms restarted the lru entry's ttl clock. -/
theorem claim_C2_counterexample :
    (rateRun (List.replicate 11 0 ++ [30000, 61000])).2
      = List.replicate 12 true ++ [false] ∧
    (fixedWindowRun (List.replicate 11 0 ++ [30000, 61000])).2
      = List.replicate 13 true :=
  ⟨by decide, by decide⟩

/-- Claim C2, amended: for every fixed (clientIp, offerId) pair the limiter
is a sliding 60-second inactivity window with threshold 12: every attempt
(accepted or rejected) stores the incremented count and restarts the entry's
60 s expiry clock; an attempt is rejected exactly when the post-increment
count exceeds 12; the count restarts at 1 only when more than 60 s passed
since the last attempt (not since the first request of the window).
Concretely, 12 requests at one instant succeed, a 13th there is rejected,
and a request 61 s after the last prior attempt succeeds again. -/
theorem claim_C2_amended :
    (rateRun (List.replicate 12 0 ++ [0, 61000])).2
      = List.replicate 12 true ++ [false, true] ∧
    (∀ c t t', t + 60000 < t' → rateStep (some ⟨c, t⟩) t' = (some ⟨1, t'⟩, true)) ∧
    (∀ c t t', t' < t + 60000 →
      rateStep (some ⟨c, t⟩) t' = (some ⟨c + 1, t'⟩, decide (c + 1 ≤ 12))) := by
  refine ⟨by decide, ?_, ?_⟩
  · intro c t t' h
    simp only [rateStep, rateGet, rateTTL, maxRequestsPerWindow]
    rw [if_neg (by omega)]
    simp
  · intro c t t' h
    simp only [rateStep, rateGet, rateTTL, maxRequestsPerWindow]
    rw [if_pos (by omega)]

/-- Witness for claim C2's amended theorem: an entry written at t = 0 with
count 5 is expired at t = 61000, so that attempt is accepted with a fresh
count of 1. -/
theorem claim_C2_amended_witness :
    rateStep (some ⟨5, 0⟩) 61000 = (some ⟨1, 61000⟩, true) :=
  claim_C2_amended.2.1 5 0 61000 (by decide)

/-- Claim C3, counterexample: the claim says an out-of-range index yields a
404, and the trending scheme is 1-based — so `trending-42-0` (index 0 is out
of the 1-based range) would have to be "not found"; the code clamps
`Math.max(0, Number(index1 || 1) - 1)` and resolves it to the first h2
block. -/
theorem claim_C3_counterexample :
    resolveBlock merchantEnv42 "trending-42-0" = some (sampleBlock "h2-0") ∧
    resolveBlock merchantEnv42 "trending-42-0" ≠ none :=
  ⟨by decide, by decide⟩

/-- Claim C3, amended: composite parsing is attempted in the fixed order
trending, then h2/h3, then the legacy pattern, first match winning; the
trending scheme indexes the concatenation of h2 blocks followed by h3 blocks
1-based, h2/h3 index their own array 0-based; a missing merchant or an index
beyond the upper bound yields a 404 — but a trending index of 0 is clamped
and resolves to the first block of the concatenation instead of 404.
Concretely, for merchant 42 with 2 h2-blocks and 3 h3-blocks: trending-42-1
is h2-block[0], trending-42-3 is h3-block[0], h3-42-2 is h3-block[2] and
h3-42-9 is not found. -/
theorem claim_C3_amended :
    resolveBlock merchantEnv42 "trending-42-1" = some (sampleBlock "h2-0") ∧
    resolveBlock merchantEnv42 "trending-42-3" = some (sampleBlock "h3-0") ∧
    resolveBlock merchantEnv42 "h3-42-2" = some (sampleBlock "h3-2") ∧
    resolveBlock merchantEnv42 "h3-42-9" = none ∧
    (∀ (env : String → Option MerchantRow) offerId p,
      parseOfferId offerId = some p → env p.merchantId = none →
      resolveBlock env offerId = none) ∧
    (∀ (st : MerchantRow) m i1,
      st.coupon_h2_blocks.length + st.coupon_h3_blocks.length < i1 →
      selectChosen (.trending m i1) st = none) ∧
    (∀ (st : MerchantRow) m i,
      st.coupon_h2_blocks.length ≤ i → selectChosen (.block .h2 m i) st = none) ∧
    (∀ (st : MerchantRow) m i,
      st.coupon_h3_blocks.length ≤ i → selectChosen (.block .h3 m i) st = none) ∧
    (∀ (st : MerchantRow) m,
      selectChosen (.trending m 0) st
        = (st.coupon_h2_blocks ++ st.coupon_h3_blocks).get? 0) := by
  refine ⟨by decide, by decide, by decide, by decide, ?_, ?_, ?_, ?_, ?_⟩
  · intro env offerId p hp henv
    simp [resolveBlock, hp, henv]
  · intro st m i1 h
    have h0 : i1 ≠ 0 := by omega
    simp only [selectChosen, h0, if_neg]
    exact List.get?_eq_none.mpr (by simp [List.length_append]; omega)
  · intro st m i h
    exact List.get?_eq_none.mpr h
  · intro st m i h
    exact List.get?_eq_none.mpr h
  · intro st m
    rfl

/-- Witness for claim C3's amended theorem: the missing-merchant and
out-of-range conjuncts applied concretely — the empty environment resolves
nothing for "7", and index 5 is out of range for merchant42's three
h3 blocks. -/
theorem claim_C3_amended_witness :
    resolveBlock (fun _ => none) "7" = none ∧
    selectChosen (.block .h3 "42" 5) merchant42 = none ∧
    selectChosen (.trending "42" 8) merchant42 = none :=
  ⟨claim_C3_amended.2.2.2.2.1 (fun _ => none) "7" (.merchantOnly "7") (by decide) rfl,
   claim_C3_amended.2.2.2.2.2.2.2.1 merchant42 "42" 5 (by decide),
   claim_C3_amended.2.2.2.2.2.1 merchant42 "42" 8 (by decide)⟩

/-- Claim C7: for every accepted click resolved as a canonical stored coupon
(source "coupon"), exactly that coupon's stored click counter is incremented
by exactly 1 through the store-side rpc (which also returns the new value);
every other coupon's counter is untouched; a click resolved as a synthetic
merchant-block offer (any source other than "coupon") changes no stored
counter at all. -/
theorem claim_C7_click_accounting :
    (∀ (db : Nat → Nat) k, clickAccountingStep "coupon" db k k = db k + 1) ∧
    (∀ (db : Nat → Nat) k j, j ≠ k → clickAccountingStep "coupon" db k j = db j) ∧
    (∀ (db : Nat → Nat) k, (incrementClickCount db k).2 = db k + 1) ∧
    (∀ (s : String) (db : Nat → Nat) k, s ≠ "coupon" → clickAccountingStep s db k = db) := by
  refine ⟨?_, ?_, ?_, ?_⟩
  · intro db k
    simp [clickAccountingStep, incrementClickCount, rpcIncrementClickCount]
  · intro db k j hj
    simp [clickAccountingStep, incrementClickCount, rpcIncrementClickCount, hj]
  · intro db k
    rfl
  · intro s db k hs
    simp [clickAccountingStep, hs]

/-- Witness for claim C7: with every counter at 3, a canonical click on
coupon 5 leaves coupon 9 at 3, and a merchant-block click changes nothing. -/
theorem claim_C7_witness :
    clickAccountingStep "coupon" (fun _ => 3) 5 9 = 3 ∧
    clickAccountingStep "merchant-block" (fun _ => 3) 5 = (fun _ => 3) :=
  ⟨claim_C7_click_accounting.2.1 (fun _ => 3) 5 9 (by decide),
   claim_C7_click_accounting.2.2.2 "merchant-block" (fun _ => 3) 5 (by decide)⟩

/-- Claim C5: for every coupons list request, if the store-layer producer
(`CouponsRepo.list`) throws, the endpoint still answers HTTP 200 with an
empty data array, total 0, prev and next null and total_pages 1, instead of
propagating a 5xx failure.  (The cache-miss hypothesis only says the
request actually reached the producer.) -/
theorem claim_C5_degraded_list :
    ∀ urlps env path p (cache : List (String × CtrlPayload × Nat)) now ttl err,
      cacheLookup cache (couponsCacheKey p) now = none →
      (couponsListEndpoint urlps env path p cache now ttl (.error err)).2.1 = 200 ∧
      (couponsListEndpoint urlps env path p cache now ttl (.error err)).2.2 =
        ⟨[], { page := p.page, limit := p.limit, total := some 0,
               prev := none, next := none, total_pages := 1 }⟩ := by
  intro urlps env path p cache now ttl err hmiss
  simp only [couponsListEndpoint, hmiss]
  exact ⟨trivial, rfl⟩

/-- Witness for claim C5: a concrete cold-cache request whose repo call
fails returns 200 with the degraded payload. -/
theorem claim_C5_witness :
    (couponsListEndpoint (fun _ => none) ⟨"", "", ""⟩ "/coupons"
        ⟨"", "", "", "all", "active", "latest", "", 1, 20, none⟩
        [] 0 60 (.error "boom")).2.1 = 200 ∧
    (couponsListEndpoint (fun _ => none) ⟨"", "", ""⟩ "/coupons"
        ⟨"", "", "", "all", "active", "latest", "", 1, 20, none⟩
        [] 0 60 (.error "boom")).2.2 =
      ⟨[], { page := 1, limit := 20, total := some 0,
             prev := none, next := none, total_pages := 1 }⟩ :=
  claim_C5_degraded_list (fun _ => none) ⟨"", "", ""⟩ "/coupons"
    ⟨"", "", "", "all", "active", "latest", "", 1, 20, none⟩ [] 0 60 "boom" rfl

/-- Claim C10: two coupons-list requests that differ only in the store slug,
or only in the status parameter, produce the identical cache key (neither
field is passed to the key builder), and within a TTL window the second
request is served the cached payload computed for the first — whatever its
own store outcome would have been. -/
theorem claim_C10_cache_key_ignores_store_status :
    (∀ (p : CouponsListParams) (store status : String),
      couponsCacheKey { p with storeSlug := store, status := status }
        = couponsCacheKey p) ∧
    (∀ urlps env path (p : CouponsListParams) (store status : String)
        (cache : List (String × CtrlPayload × Nat)) (now ttl now2 : Nat) repo1 repo2,
      cacheLookup cache (couponsCacheKey p) now = none →
      now2 < now + ttl →
      (couponsListEndpoint urlps env path { p with storeSlug := store, status := status }
          (couponsListEndpoint urlps env path p cache now ttl repo1).1 now2 ttl repo2).2.2
        = (couponsListEndpoint urlps env path p cache now ttl repo1).2.2) := by
  constructor
  · intro p store status
    rfl
  · intro urlps env path p store status cache now ttl now2 repo1 repo2 hmiss hfresh
    have hkey : couponsCacheKey { p with storeSlug := store, status := status }
        = couponsCacheKey p := rfl
    simp only [couponsListEndpoint, hmiss, hkey]
    simp [cacheLookup, List.find?, hfresh]

/-- The character data of a concatenation is the concatenation of data. -/
theorem data_append (a b : String) : (a ++ b).data = a.data ++ b.data := by
  cases a
  cases b
  rfl

/-- A concatenation with a nonempty left part is nonempty. -/
theorem str_append_ne_empty_left (a b : String) (ha : a ≠ "") : a ++ b ≠ "" := by
  intro h
  apply ha
  have hd : (a ++ b).data = [] := by rw [h]
  rw [data_append] at hd
  have : a.data = [] := (List.append_eq_nil.mp hd).1
  cases a
  simp_all

/-- The fallback-or-pack step at the end of the path normalizer never
produces the empty string when the fallback is nonempty. -/
theorem ite_mk_ne (fb : String) (p : List Char) (hfb : fb ≠ "") :
    (if p = [] then fb else String.mk p) ≠ "" := by
  split_ifs with h
  · exact hfb
  · intro hc
    apply h
    have hd : (String.mk p).data = [] := by rw [hc]
    simpa using hd

/-- The frontend path normalizer never returns the empty string when its
fallback is nonempty. -/
theorem normalizePath_ne_empty (raw fb : String) (hfb : fb ≠ "") :
    normalizePathToFrontend raw fb ≠ "" := by
  unfold normalizePathToFrontend
  split_ifs with h1
  · exact hfb
  · exact ite_mk_ne fb _ hfb

/-- Natural ceiling division `(a + b - 1) / b` agrees with the rational
ceiling of `a / b`. -/
theorem addPredDiv_eq_ceil (a b : Nat) (hb : 0 < b) :
    (a + b - 1) / b = Nat.ceil ((a : ℚ) / (b : ℚ)) := by
  have hbq : (0 : ℚ) < (b : ℚ) := by exact_mod_cast hb
  rcases Nat.eq_zero_or_pos a with ha | ha
  · subst ha
    rw [Nat.div_eq_of_lt (by omega : 0 + b - 1 < b)]
    simp
  · have hq1 : 1 ≤ (a + b - 1) / b := by
      rw [Nat.le_div_iff_mul_le hb]
      omega
    symm
    rw [Nat.ceil_eq_iff (by omega)]
    have hdm : b * ((a + b - 1) / b) + (a + b - 1) % b = a + b - 1 :=
      Nat.div_add_mod _ _
    have hrlt : (a + b - 1) % b < b := Nat.mod_lt _ hb
    set q := (a + b - 1) / b with hq
    have h1 : b * q ≤ a + b - 1 := Nat.le.intro hdm
    have h2 : a + b - 1 < b * q + b := by
      rw [← hdm]
      exact Nat.add_lt_add_left hrlt _
    have hub : a ≤ q * b := by
      rw [Nat.mul_comm]
      obtain ⟨B, hB⟩ : ∃ x, b * q = x := ⟨_, rfl⟩
      rw [hB] at h2 ⊢
      omega
    have hnat : (q - 1) * b < a := by
      have hexp : (q - 1) * b + b = b * q := by
        have h1q : q - 1 + 1 = q := Nat.succ_pred_eq_of_pos hq1
        calc (q - 1) * b + b = (q - 1 + 1) * b := by ring
        _ = q * b := by rw [h1q]
        _ = b * q := Nat.mul_comm _ _
      obtain ⟨A, hA⟩ : ∃ x, (q - 1) * b = x := ⟨_, rfl⟩
      obtain ⟨B, hB⟩ : ∃ x, b * q = x := ⟨_, rfl⟩
      rw [hA, hB] at hexp
      rw [hB] at h1
      rw [hA]
      omega
    constructor
    · rw [lt_div_iff₀ hbq]
      exact_mod_cast hnat
    · rw [div_le_iff₀ hbq]
      exact_mod_cast hub

/-- For a page strictly past 1 the previous link is never null (the link
string is always nonempty, whatever the environment). -/
theorem buildPrevNext_prev_ne (env : PagEnv) (path : String) (page : Int)
    (limit total : Nat) (extra : List (String × Option String)) (hgt : 1 < page) :
    (buildPrevNext env path page limit total extra).prev ≠ none := by
  have hfrontNe : normalizePathToFrontend path "/" ≠ "" :=
    normalizePath_ne_empty path "/" (by decide)
  simp only [buildPrevNext]
  rw [if_pos hgt]
  have hpp : ¬ (page - 1 = 0) := by omega
  simp only [hpp, if_false, if_neg]
  split_ifs <;> simp_all <;>
    exact str_append_ne_empty_left _ _ hfrontNe (by assumption)

/-- For a page strictly below the page count the next link is never null. -/
theorem buildPrevNext_next_ne (env : PagEnv) (path : String) (page : Int)
    (limit total : Nat) (extra : List (String × Option String)) (hp : 1 ≤ page)
    (hlt : page < ((buildPrevNext env path page limit total extra).totalPages : Int)) :
    (buildPrevNext env path page limit total extra).next ≠ none := by
  have hfrontNe : normalizePathToFrontend path "/" ≠ "" :=
    normalizePath_ne_empty path "/" (by decide)
  simp only [buildPrevNext] at hlt ⊢
  rw [if_pos hlt]
  have hpp : ¬ (page + 1 = 0) := by omega
  simp only [hpp, if_false, if_neg]
  split_ifs <;> simp_all <;>
    exact str_append_ne_empty_left _ _ hfrontNe (by assumption)

/-- Claim C6, counterexample: the claim says `next` is null iff
`page == totalPages`, for all inputs with limit ≥ 1.  With total 0, limit 20
and page 2 the code yields totalPages 1 and next null although page (2) is
not equal to totalPages (1): for a page beyond the last one `next` is null
without `page == totalPages`. -/
theorem claim_C6_counterexample :
    (buildPrevNext ⟨"", "", ""⟩ "/coupons" 2 20 0 []).next = none ∧
    (buildPrevNext ⟨"", "", ""⟩ "/coupons" 2 20 0 []).totalPages = 1 ∧
    ((buildPrevNext ⟨"", "", ""⟩ "/coupons" 2 20 0 []).totalPages : Int) ≠ 2 :=
  ⟨by decide, by decide, by decide⟩

/-- Claim C6, amended: for all inputs with limit ≥ 1 and integer page ≥ 1,
totalPages = max(ceil(total/limit), 1); prev is null iff page = 1; next is
null iff page ≥ totalPages (the claim's "iff page == totalPages" holds
whenever page ≤ totalPages; pages beyond the last also get a null next).
In particular total = 0 yields totalPages = 1 and, at page 1, prev = next =
null. -/
theorem claim_C6_pagination_amended :
    ∀ env path page limit total extra, 1 ≤ limit → 1 ≤ page →
      ((buildPrevNext env path page limit total extra).totalPages
        = max (Nat.ceil ((total : ℚ) / (limit : ℚ))) 1) ∧
      ((buildPrevNext env path page limit total extra).prev = none ↔ page = 1) ∧
      ((buildPrevNext env path page limit total extra).next = none ↔
        ((buildPrevNext env path page limit total extra).totalPages : Int) ≤ page) := by
  intro env path page limit total extra hl hp
  have hl0 : ¬ (limit = 0) := by omega
  have htp : (buildPrevNext env path page limit total extra).totalPages
      = max ((total + limit - 1) / limit) 1 := by
    show max ((total + (if limit = 0 then 1 else limit) - 1) /
        (if limit = 0 then 1 else limit)) 1 = _
    rw [if_neg hl0]
  refine ⟨?_, ?_, ?_⟩
  · rw [htp, addPredDiv_eq_ceil total limit (by omega)]
  · constructor
    · intro h
      by_contra hne
      exact buildPrevNext_prev_ne env path page limit total extra (by omega) h
    · intro h
      subst h
      simp only [buildPrevNext]
      rw [if_neg (by omega : ¬ ((1:Int) > 1))]
  · rcases lt_or_le page ((buildPrevNext env path page limit total extra).totalPages : Int)
      with hlt | hge
    · constructor
      · intro h
        exact absurd h (buildPrevNext_next_ne env path page limit total extra hp hlt)
      · intro h
        omega
    · constructor
      · intro _
        exact hge
      · intro _
        simp only [buildPrevNext] at hge ⊢
        rw [if_neg (by omega)]

/-- Witness for claim C6's amended theorem, at the claim's own edge case:
total 0, limit 20, page 1. -/
theorem claim_C6_witness :
    ((buildPrevNext ⟨"", "", ""⟩ "/coupons" 1 20 0 []).totalPages
      = max (Nat.ceil ((0 : ℚ) / (20 : ℚ))) 1) ∧
    ((buildPrevNext ⟨"", "", ""⟩ "/coupons" 1 20 0 []).prev = none ↔ (1 : Int) = 1) ∧
    ((buildPrevNext ⟨"", "", ""⟩ "/coupons" 1 20 0 []).next = none ↔
      ((buildPrevNext ⟨"", "", ""⟩ "/coupons" 1 20 0 []).totalPages : Int) ≤ 1) :=
  claim_C6_pagination_amended ⟨"", "", ""⟩ "/coupons" 1 20 0 [] (by decide) (by decide)

/-- A limit already in the valid range is unchanged by the repo's clamp. -/
theorem clampLimit_eq_of_bounds (l : Nat) (h1 : 1 ≤ l) (h2 : l ≤ 100) :
    clampLimit l = l := by
  have h0 : ¬ (l = 0) := by omega
  simp [clampLimit, h0]
  omega

/-- Claim C9: for every cursor-mode list query with an in-range limit L,
the built query requests exactly L rows (`limit(L)`, not L+1) and carries no
offset range; the sort is fixed to primary-key descending; when the cursor
decodes to a truthy id the keyset condition `id < decoded.id` is attached and
is exactly the strict comparison on row ids; and the returned meta has
`total` null and `has_more` true iff the number of returned rows equals L. -/
theorem claim_C9_cursor_list :
    ∀ (p : RepoListParams) cursorStr merchantId catIds
      (fetch : QueryDesc → Except String (List RawCouponRow)),
      1 ≤ p.limit → p.limit ≤ 100 →
      (cursorQueryDesc p merchantId catIds (decodeCursor (some cursorStr))).limitN
          = some p.limit ∧
      (cursorQueryDesc p merchantId catIds (decodeCursor (some cursorStr))).rangeFromTo
          = none ∧
      (cursorQueryDesc p merchantId catIds (decodeCursor (some cursorStr))).orderKeys
          = [("id", false)] ∧
      (∀ d, decodeCursor (some cursorStr) = some d → d.id ≠ 0 →
        (cursorQueryDesc p merchantId catIds (decodeCursor (some cursorStr))).ltId
            = some d.id ∧
        (∀ rid,
          rowPassesLt (cursorQueryDesc p merchantId catIds (decodeCursor (some cursorStr))) rid
            = decide (rid < d.id))) ∧
      (∀ r, listCursorMode p cursorStr merchantId catIds fetch = .ok r →
        r.meta.total = none ∧
        r.meta.has_more = some (decide (r.data.length = p.limit))) := by
  intro p cursorStr merchantId catIds fetch h1 h100
  have hcl : clampLimit p.limit = p.limit := clampLimit_eq_of_bounds p.limit h1 h100
  refine ⟨?_, rfl, rfl, ?_, ?_⟩
  · simp [cursorQueryDesc, hcl]
  · intro d hd hd0
    constructor
    · simp [cursorQueryDesc, hd, hd0]
    · intro rid
      simp [rowPassesLt, cursorQueryDesc, hd, hd0]
  · intro r hr
    simp only [listCursorMode] at hr
    cases hfetch : fetch (cursorQueryDesc p merchantId catIds (decodeCursor (some cursorStr))) with
    | error e =>
      rw [hfetch] at hr
      cases hr
    | ok data =>
      rw [hfetch] at hr
      injection hr with hr
      subst hr
      refine ⟨rfl, ?_⟩
      simp [hcl]

/-- Witness for claim C9: the cursor token encoding id 50 with key null, a
limit of 20 and a store answering with no rows. -/
theorem claim_C9_witness :
    (cursorQueryDesc ⟨"", "all", "active", 1, 20⟩ none none
        (decodeCursor (some "eyJpZCI6NTAsImtleSI6bnVsbH0="))).limitN = some 20 ∧
    (cursorQueryDesc ⟨"", "all", "active", 1, 20⟩ none none
        (decodeCursor (some "eyJpZCI6NTAsImtleSI6bnVsbH0="))).rangeFromTo = none ∧
    (cursorQueryDesc ⟨"", "all", "active", 1, 20⟩ none none
        (decodeCursor (some "eyJpZCI6NTAsImtleSI6bnVsbH0="))).orderKeys = [("id", false)] ∧
    (cursorQueryDesc ⟨"", "all", "active", 1, 20⟩ none none
        (decodeCursor (some "eyJpZCI6NTAsImtleSI6bnVsbH0="))).ltId = some 50 ∧
    rowPassesLt (cursorQueryDesc ⟨"", "all", "active", 1, 20⟩ none none
        (decodeCursor (some "eyJpZCI6NTAsImtleSI6bnVsbH0="))) 49 = decide (49 < 50) ∧
    (⟨[], ⟨1, 20, none, none, none, some false⟩⟩ : RepoListResult).meta.total = none := by
  have H := claim_C9_cursor_list ⟨"", "all", "active", 1, 20⟩
    "eyJpZCI6NTAsImtleSI6bnVsbH0=" none none (fun _ => .ok []) (by decide) (by decide)
  have Hd := H.2.2.2.1 ⟨50, none⟩ (by decide) (by decide)
  have Hok := H.2.2.2.2 ⟨[], ⟨1, 20, none, none, none, some false⟩⟩ rfl
  exact ⟨H.1, H.2.1, H.2.2.1, Hd.1, Hd.2 49, Hok.1⟩

/-- Witness for claim C10: a second request differing only in store and
status, one second after a failed first request, is served the first
request's cached degraded payload even though its own repo outcome would
have been a success. -/
theorem claim_C10_witness :
    (couponsListEndpoint (fun _ => none) ⟨"", "", ""⟩ "/coupons"
        { (⟨"", "", "", "all", "active", "latest", "", 1, 20, none⟩ : CouponsListParams)
            with storeSlug := "nike", status := "expired" }
        (couponsListEndpoint (fun _ => none) ⟨"", "", ""⟩ "/coupons"
          ⟨"", "", "", "all", "active", "latest", "", 1, 20, none⟩
          [] 0 60 (.error "boom")).1 1 60
        (.ok ⟨[], { page := 1, limit := 20, total := some 7 }⟩)).2.2
      = (couponsListEndpoint (fun _ => none) ⟨"", "", ""⟩ "/coupons"
          ⟨"", "", "", "all", "active", "latest", "", 1, 20, none⟩
          [] 0 60 (.error "boom")).2.2 :=
  claim_C10_cache_key_ignores_store_status.2 (fun _ => none) ⟨"", "", ""⟩ "/coupons"
    ⟨"", "", "", "all", "active", "latest", "", 1, 20, none⟩ "nike" "expired"
    [] 0 60 1 (.error "boom") (.ok ⟨[], { page := 1, limit := 20, total := some 7 }⟩)
    rfl (by decide)

theorem utf8Bytes_lt256 (n : Nat) (h : n < 0x110000) : ∀ b ∈ utf8Bytes n, b < 256 := by
  intro b hb
  unfold utf8Bytes at hb
  split_ifs at hb <;> simp_all <;> omega

theorem utf8Bytes_ne_nil (n : Nat) : utf8Bytes n ≠ [] := by
  unfold utf8Bytes
  split_ifs <;> simp

set_option maxRecDepth 4000 in
theorem utf8Dec1_roundtrip (n : Nat) (h : n < 0x110000) (rest : List Nat) :
    utf8Dec1 (utf8Bytes n ++ rest) = some (n, rest) := by
  unfold utf8Bytes
  split_ifs with h1 h2 h3
  · simp [utf8Dec1, h1]
  · simp only [List.cons_append, List.nil_append, utf8Dec1]
    rw [if_neg (by omega), if_neg (by omega), if_pos (by omega), if_pos (by omega)]
    congr 2
    omega
  · simp only [List.cons_append, List.nil_append, utf8Dec1]
    rw [if_neg (by omega), if_neg (by omega), if_neg (by omega), if_pos (by omega),
      if_pos (by constructor <;> constructor <;> omega)]
    congr 2
    omega
  · simp only [List.cons_append, List.nil_append, utf8Dec1]
    rw [if_neg (by omega), if_neg (by omega), if_neg (by omega), if_neg (by omega),
      if_pos (by omega), if_pos (by refine ⟨⟨?_, ?_⟩, ⟨?_, ?_⟩, ?_, ?_⟩ <;> omega)]
    congr 2
    omega

theorem char_toNat_lt (c : Char) : c.toNat < 0x110000 := by
  have h := c.valid
  simp only [UInt32.lt_def, BitVec.lt_def] at h
  rcases h with h | ⟨_, h⟩ <;>
    · simp only [Char.toNat, UInt32.toNat] at *
      omega

theorem char_toNat_inj (a b : Char) (h : a.toNat = b.toNat) : a = b := by
  have := Char.ofNat_toNat a
  rw [← this, h, Char.ofNat_toNat]

theorem utf8BytesOf_cons (c : Char) (cs : List Char) :
    utf8BytesOf (c :: cs) = utf8Bytes c.toNat ++ utf8BytesOf cs := rfl

theorem utf8DecAll_roundtrip (l : List Char) :
    ∀ fuel, (utf8BytesOf l).length ≤ fuel →
      utf8DecAllAux fuel (utf8BytesOf l) = some (l.map Char.toNat) := by
  induction l with
  | nil => intro fuel _; cases fuel <;> rfl
  | cons c cs ih =>
    intro fuel hf
    rw [utf8BytesOf_cons] at hf ⊢
    have hne : utf8Bytes c.toNat ≠ [] := utf8Bytes_ne_nil _
    have hlen : 1 ≤ (utf8Bytes c.toNat).length := by
      cases hbs : utf8Bytes c.toNat with
      | nil => exact absurd hbs hne
      | cons x xs => simp
    have hlen2 : (utf8Bytes c.toNat ++ utf8BytesOf cs).length
        = (utf8Bytes c.toNat).length + (utf8BytesOf cs).length := List.length_append _ _
    cases fuel with
    | zero => omega
    | succ f =>
      have hstep : utf8Dec1 (utf8Bytes c.toNat ++ utf8BytesOf cs)
          = some (c.toNat, utf8BytesOf cs) :=
        utf8Dec1_roundtrip c.toNat (char_toNat_lt c) _
      have hcons : utf8Bytes c.toNat ++ utf8BytesOf cs ≠ [] := by
        cases hbs : utf8Bytes c.toNat with
        | nil => exact absurd hbs hne
        | cons x xs => simp
      cases hsh : utf8Bytes c.toNat ++ utf8BytesOf cs with
      | nil => exact absurd hsh hcons
      | cons y ys =>
        show (match utf8Dec1 (y :: ys) with
          | some (n, rest) => (utf8DecAllAux f rest).map (n :: ·)
          | none => none) = _
        rw [← hsh, hstep]
        show (utf8DecAllAux f (utf8BytesOf cs)).map (c.toNat :: ·) = _
        rw [ih f (by omega)]
        rfl

theorem hexValU_hexDigitU (x : Nat) (h : x < 16) : hexValU (hexDigitU x) = some x := by
  interval_cases x <;> decide

theorem getD_mem_or {α : Type} (l : List α) (i : Nat) (d : α) :
    l.getD i d ∈ l ∨ l.getD i d = d := by
  rcases h : l.get? i with _ | x
  · right
    simp [List.getD_eq_getElem?_getD, ← List.get?_eq_getElem?, h]
  · left
    have : l.getD i d = x := by
      simp [List.getD_eq_getElem?_getD, ← List.get?_eq_getElem?, h]
    rw [this]
    exact List.get?_mem h

theorem getD_ne_of_table {l : List Char} {bad d : Char} (i : Nat)
    (hl : l.all (· ≠ bad) = true) (hd : d ≠ bad) : l.getD i d ≠ bad := by
  rcases getD_mem_or l i d with h | h
  · have := List.all_eq_true.mp hl _ h
    simpa using this
  · rw [h]
    exact hd

theorem hexDigitU_ne_pct (x : Nat) : hexDigitU x ≠ '%' :=
  getD_ne_of_table x (by decide) (by decide)

theorem hexDigitU_ne_bar (x : Nat) : hexDigitU x ≠ '|' :=
  getD_ne_of_table x (by decide) (by decide)

theorem uriUnreserved_props (c : Char) (h : uriUnreserved c = true) :
    c.toNat < 0x80 ∧ c ≠ '%' ∧ c ≠ '|' := by
  simp only [uriUnreserved, Bool.or_eq_true, Bool.and_eq_true, decide_eq_true_eq] at h
  refine ⟨by omega, ?_, ?_⟩ <;>
    · intro hc
      subst hc
      simp at h

theorem pctDecBytes_pctByte (b : Nat) (hb : b < 256) (rest : List Char) :
    pctDecBytes (pctByte b ++ rest) = (pctDecBytes rest).map (b :: ·) := by
  show pctDecBytes ('%' :: hexDigitU (b / 16) :: hexDigitU (b % 16) :: rest) = _
  rw [pctDecBytes]
  rw [if_pos rfl]
  rw [hexValU_hexDigitU (b / 16) (by omega), hexValU_hexDigitU (b % 16) (by omega)]
  cases h : pctDecBytes rest with
  | none => rfl
  | some bs =>
    show some ((b / 16 * 16 + b % 16) :: bs) = some (b :: bs)
    congr 2
    omega

theorem pctDecBytes_hexFold (bs : List Nat) (hbs : ∀ b ∈ bs, b < 256) (rest : List Char) :
    pctDecBytes (bs.foldr (fun b acc => pctByte b ++ acc) [] ++ rest)
      = (pctDecBytes rest).map (bs ++ ·) := by
  induction bs with
  | nil => simp
  | cons b bs ih =>
    have hb : b < 256 := hbs b (by simp)
    have hbs' : ∀ x ∈ bs, x < 256 := fun x hx => hbs x (by simp [hx])
    show pctDecBytes (pctByte b ++ (bs.foldr (fun b acc => pctByte b ++ acc) [] ++ rest)) = _
    rw [pctDecBytes_pctByte b hb, ih hbs']
    cases pctDecBytes rest <;> rfl

theorem pctDecBytes_encChar (c : Char) (rest : List Char) :
    pctDecBytes (encChar c ++ rest) = (pctDecBytes rest).map (utf8Bytes c.toNat ++ ·) := by
  unfold encChar
  split_ifs with h
  · obtain ⟨hlt, hpct, _⟩ := uriUnreserved_props c h
    have hbyte : utf8Bytes c.toNat = [c.toNat] := by
      unfold utf8Bytes
      rw [if_pos hlt]
    show pctDecBytes (c :: rest) = _
    rcases rest with _ | ⟨h1, _ | ⟨h2, r⟩⟩ <;>
      simp [pctDecBytes, hpct, h, hbyte]
  · exact pctDecBytes_hexFold _ (utf8Bytes_lt256 _ (char_toNat_lt c)) rest

theorem pctDecBytes_encChars (cs : List Char) :
    pctDecBytes (encChars cs) = some (utf8BytesOf cs) := by
  induction cs with
  | nil => rfl
  | cons c cs ih =>
    show pctDecBytes (encChar c ++ encChars cs) = _
    rw [pctDecBytes_encChar, ih]
    rfl

theorem percentDecodeCodes_encChars (cs : List Char) :
    percentDecodeCodes (encChars cs) = some (cs.map Char.toNat) := by
  unfold percentDecodeCodes
  rw [pctDecBytes_encChars]
  exact utf8DecAll_roundtrip cs _ (le_refl _)

theorem encChars_inj (cs cs' : List Char) (h : encChars cs = encChars cs') : cs = cs' := by
  have h1 := percentDecodeCodes_encChars cs
  have h2 := percentDecodeCodes_encChars cs'
  rw [h] at h1
  rw [h1] at h2
  injection h2 with h3
  clear h1 h
  induction cs generalizing cs' with
  | nil => cases cs' <;> simp_all
  | cons c cs ih =>
    cases cs' with
    | nil => simp_all
    | cons d ds =>
      simp only [List.map] at h3
      injection h3 with ha hb
      rw [char_toNat_inj c d ha, ih ds hb]

theorem encodeURIComponent_inj (s t : String) (h : encodeURIComponent s = encodeURIComponent t) :
    s = t := by
  unfold encodeURIComponent at h
  injection h with h
  have := encChars_inj s.data t.data h
  cases s
  cases t
  exact congrArg String.mk this

theorem hexFold_bar_free (bs : List Nat) :
    ∀ x ∈ bs.foldr (fun b acc => pctByte b ++ acc) [], x ≠ '|' := by
  induction bs with
  | nil =>
    intro x hx
    simp at hx
  | cons b bs ih =>
    intro x hx
    rcases List.mem_append.mp hx with hm | hm
    · simp only [pctByte, List.mem_cons, List.not_mem_nil, or_false] at hm
      rcases hm with h | h | h
      · subst h; decide
      · subst h; exact hexDigitU_ne_bar _
      · subst h; exact hexDigitU_ne_bar _
    · exact ih x hm

theorem encChar_bar_free (c : Char) : ∀ x ∈ encChar c, x ≠ '|' := by
  intro x hx
  unfold encChar at hx
  split_ifs at hx with h
  · obtain ⟨_, _, hbar⟩ := uriUnreserved_props c h
    simp at hx
    subst hx
    exact hbar
  · exact hexFold_bar_free _ x hx

theorem encChars_bar_free (cs : List Char) : ∀ x ∈ encChars cs, x ≠ '|' := by
  intro x hx
  induction cs with
  | nil => simp [encChars] at hx
  | cons c cs ih =>
    rcases List.mem_append.mp hx with hm | hm
    · exact encChar_bar_free c x hm
    · exact ih hm

theorem str_ext (a b : String) (h : a.data = b.data) : a = b := by
  cases a
  cases b
  exact congrArg String.mk h

theorem str_append_empty (a : String) : a ++ "" = a := by
  apply str_ext
  rw [data_append]
  simp

theorem enc_empty : encodeURIComponent "" = "" := rfl

theorem cacheKeyPart_eq (params : List (String × String)) (k : String) :
    cacheKeyPart params k = k ++ "=" ++ encodeURIComponent (cacheNorm params k) := by
  unfold cacheKeyPart cacheNorm
  cases List.lookup k params with
  | none => rw [enc_empty, str_append_empty]
  | some v => rfl

theorem bar_peel (p : List Char) :
    ∀ (q r s : List Char), (∀ x ∈ p, x ≠ '|') → (∀ x ∈ q, x ≠ '|') →
    (r = [] ∨ ∃ t, r = '|' :: t) → (s = [] ∨ ∃ t, s = '|' :: t) →
    p ++ r = q ++ s → p = q ∧ r = s := by
  induction p with
  | nil =>
    intro q r s _ hq hr hs h
    cases q with
    | nil => simpa using h
    | cons d ds =>
      exfalso
      simp only [List.nil_append, List.cons_append] at h
      rcases hr with hre | ⟨t, hrt⟩
      · subst hre
        cases h
      · subst hrt
        injection h with h1 _
        exact hq d (by simp) h1.symm
  | cons c cs ih =>
    intro q r s hp hq hr hs h
    cases q with
    | nil =>
      exfalso
      simp only [List.cons_append, List.nil_append] at h
      rcases hs with hse | ⟨t, hst⟩
      · subst hse
        simp at h
      · subst hst
        injection h with h1 _
        exact hp c (by simp) h1
    | cons d ds =>
      simp only [List.cons_append] at h
      injection h with h1 h2
      subst h1
      obtain ⟨he, ht⟩ := ih ds r s (fun x hx => hp x (by simp [hx]))
        (fun x hx => hq x (by simp [hx])) hr hs h2
      exact ⟨by rw [he], ht⟩

theorem joinBar_inj (ps : List String) :
    ∀ qs : List String, ps.length = qs.length →
    (∀ p ∈ ps, ∀ x ∈ p.data, x ≠ '|') → (∀ q ∈ qs, ∀ x ∈ q.data, x ≠ '|') →
    joinBar ps = joinBar qs → ps = qs := by
  induction ps with
  | nil =>
    intro qs hlen _ _ _
    cases qs with
    | nil => rfl
    | cons q qs => simp at hlen
  | cons p ps ih =>
    intro qs hlen hps hqs h
    cases qs with
    | nil => simp at hlen
    | cons q qs =>
      cases ps with
      | nil =>
        cases qs with
        | nil => rw [show joinBar [p] = p from rfl, show joinBar [q] = q from rfl] at h; rw [h]
        | cons q2 qs2 => simp at hlen
      | cons p2 ps2 =>
        cases qs with
        | nil => simp at hlen
        | cons q2 qs2 =>
          have hJ : joinBar (p :: p2 :: ps2) = p ++ "|" ++ joinBar (p2 :: ps2) := rfl
          have hJ2 : joinBar (q :: q2 :: qs2) = q ++ "|" ++ joinBar (q2 :: qs2) := rfl
          rw [hJ, hJ2] at h
          have hd : p.data ++ ('|' :: (joinBar (p2 :: ps2)).data)
              = q.data ++ ('|' :: (joinBar (q2 :: qs2)).data) := by
            have := congrArg String.data h
            rw [data_append, data_append, data_append, data_append] at this
            simpa using this
          obtain ⟨he, ht⟩ := bar_peel p.data q.data _ _
            (hps p (by simp)) (hqs q (by simp))
            (Or.inr ⟨_, rfl⟩) (Or.inr ⟨_, rfl⟩) hd
          have hpq : p = q := str_ext _ _ he
          injection ht with _ ht2
          have : joinBar (p2 :: ps2) = joinBar (q2 :: qs2) := str_ext _ _ ht2
          have htail := ih (q2 :: qs2) (by simpa using hlen)
            (fun x hx => hps x (by simp [hx])) (fun x hx => hqs x (by simp [hx])) this
          rw [hpq, htail]

theorem cacheKeyPart_bar_free (b : List (String × String)) (k : String)
    (hk : ∀ x ∈ k.data, x ≠ '|') : ∀ x ∈ (cacheKeyPart b k).data, x ≠ '|' := by
  rw [cacheKeyPart_eq]
  intro x hx
  rw [data_append, data_append] at hx
  rcases List.mem_append.mp hx with hx1 | hx2
  · rcases List.mem_append.mp hx1 with hx3 | hx4
    · exact hk x hx3
    · simp only [show ("=" : String).data = ['='] from rfl, List.mem_singleton] at hx4
      subst hx4
      decide
  · exact encChars_bar_free _ x hx2

theorem cacheKeyPart_congr (b b' : List (String × String)) (k : String)
    (h : List.lookup k b = List.lookup k b') : cacheKeyPart b k = cacheKeyPart b' k := by
  unfold cacheKeyPart
  rw [h]

theorem part_eq_norm (b b' : List (String × String)) (k : String)
    (h : cacheKeyPart b k = cacheKeyPart b' k) : cacheNorm b k = cacheNorm b' k := by
  rw [cacheKeyPart_eq, cacheKeyPart_eq] at h
  have hd := congrArg String.data h
  rw [data_append, data_append, data_append, data_append] at hd
  have he := List.append_cancel_left hd
  exact encodeURIComponent_inj _ _ (str_ext _ _ he)

theorem fieldNames_bar_free : ∀ k ∈ cacheFieldNames, ∀ x ∈ k.data, x ≠ '|' := by decide

theorem cacheKey_norm_inj (pfx : String) (b b' : List (String × String))
    (h : makeListCacheKey pfx b = makeListCacheKey pfx b') :
    ∀ k ∈ cacheFieldNames, cacheNorm b k = cacheNorm b' k := by
  unfold makeListCacheKey at h
  have hparts : cacheFieldNames.map (cacheKeyPart b) = cacheFieldNames.map (cacheKeyPart b') := by
    simp only [cacheFieldNames, List.map] at h ⊢
    have hJ : ∀ (x : String) xs, joinBar (pfx :: x :: xs) = pfx ++ "|" ++ joinBar (x :: xs) :=
      fun x xs => rfl
    rw [hJ, hJ] at h
    have hd := congrArg String.data h
    rw [data_append, data_append, data_append, data_append] at hd
    have htail := List.append_cancel_left hd
    apply joinBar_inj _ _ (by simp)
      (by
        intro p hp
        simp only [List.mem_cons, List.not_mem_nil, or_false] at hp
        rcases hp with h1 | h1 | h1 | h1 | h1 | h1 | h1 | h1 | h1 <;>
          (subst h1; exact cacheKeyPart_bar_free b _ (by decide)))
      (by
        intro p hp
        simp only [List.mem_cons, List.not_mem_nil, or_false] at hp
        rcases hp with h1 | h1 | h1 | h1 | h1 | h1 | h1 | h1 | h1 <;>
          (subst h1; exact cacheKeyPart_bar_free b' _ (by decide)))
      (str_ext _ _ htail)
  intro k hk
  apply part_eq_norm
  simp only [cacheFieldNames, List.map, List.cons.injEq] at hparts
  simp only [cacheFieldNames, List.mem_cons, List.not_mem_nil, or_false] at hk
  rcases hk with h1 | h1 | h1 | h1 | h1 | h1 | h1 | h1 | h1 <;> subst h1 <;> tauto

/-- Claim C4, amended: the recognized fields of the cache key builder are
the nine names page, limit, q, category, categorySlug, type, sort, locale,
status (the claim's list omits categorySlug).  (a) two bags that bind the
same values to the same recognized fields produce byte-identical keys,
whatever the property order in the caller; (b) two bags that differ in the
normalized value of any recognized field — page and limit coerced through
parseInt-or-0, other fields defaulting to the empty string when absent —
produce different keys. -/
theorem claim_C4_cache_key_amended :
    ∀ (pfx : String) (b b' : List (String × String)),
      ((∀ k ∈ cacheFieldNames, List.lookup k b = List.lookup k b') →
        makeListCacheKey pfx b = makeListCacheKey pfx b') ∧
      (∀ k ∈ cacheFieldNames, cacheNorm b k ≠ cacheNorm b' k →
        makeListCacheKey pfx b ≠ makeListCacheKey pfx b') := by
  intro pfx b b'
  constructor
  · intro hagree
    unfold makeListCacheKey
    have e : cacheFieldNames.map (cacheKeyPart b) = cacheFieldNames.map (cacheKeyPart b') :=
      List.map_congr_left (fun k hk => cacheKeyPart_congr b b' k (hagree k hk))
    rw [e]
  · intro k hk hne heq
    exact hne (cacheKey_norm_inj pfx b b' heq k hk)

/-- Claim C4, counterexample: the claim's recognized-field list is page,
limit, q, category, type, sort, locale, status.  The bags
`[(categorySlug, a)]` and `[(categorySlug, b)]` bind the same values to
every one of those eight fields, yet the builder produces different keys:
the code also keys on the ninth field `categorySlug`. -/
theorem claim_C4_counterexample :
    (∀ k ∈ ["page", "limit", "q", "category", "type", "sort", "locale", "status"],
      List.lookup k [("categorySlug", "a")] = List.lookup k [("categorySlug", "b")]) ∧
    makeListCacheKey "coupons" [("categorySlug", "a")]
      ≠ makeListCacheKey "coupons" [("categorySlug", "b")] :=
  ⟨by decide, by decide⟩

/-- Witness for claim C4's amended theorem: part (b) at bags differing in q,
part (a) at bags differing only in property order. -/
theorem claim_C4_witness :
    makeListCacheKey "coupons" [("q", "a")] ≠ makeListCacheKey "coupons" [("q", "b")] ∧
    makeListCacheKey "coupons" [("page", "2"), ("q", "x")]
      = makeListCacheKey "coupons" [("q", "x"), ("page", "2")] :=
  ⟨(claim_C4_cache_key_amended "coupons" [("q", "a")] [("q", "b")]).2 "q" (by decide) (by decide),
   (claim_C4_cache_key_amended "coupons" [("page", "2"), ("q", "x")] [("q", "x"), ("page", "2")]).1
     (by decide)⟩

theorem digitChar_toNat (m : Nat) (hm : m < 10) : (digitChar m).toNat = 48 + m := by
  interval_cases m <;> decide

theorem natDecimalAux_eq (f n : Nat) :
    natDecimalAux (f + 1) n
      = if n < 10 then [digitChar n] else natDecimalAux f (n / 10) ++ [digitChar (n % 10)] := rfl

theorem natDecimalAux_spec : ∀ fuel n, n < fuel →
    (∀ c ∈ natDecimalAux fuel n, 48 ≤ c.toNat ∧ c.toNat ≤ 57) ∧
    (natDecimalAux fuel n ≠ []) ∧
    (∀ acc, ((natDecimalAux fuel n).map Char.toNat).foldl (fun a d => a * 10 + (d - 48)) acc
        = acc * 10 ^ (natDecimalAux fuel n).length + n) := by
  intro fuel
  induction fuel with
  | zero => intro n h; omega
  | succ f ih =>
    intro n h
    by_cases h10 : n < 10
    · have he : natDecimalAux (f + 1) n = [digitChar n] := by
        rw [natDecimalAux_eq, if_pos h10]
      have hd : (digitChar n).toNat = 48 + n := digitChar_toNat n h10
      refine ⟨?_, by simp [he], ?_⟩
      · intro c hc
        rw [he] at hc
        simp at hc
        subst hc
        omega
      · intro acc
        rw [he]
        simp [hd]
    · have he : natDecimalAux (f + 1) n
          = natDecimalAux f (n / 10) ++ [digitChar (n % 10)] := by
        rw [natDecimalAux_eq, if_neg h10]
      have hrec : n / 10 < f := by omega
      obtain ⟨ihd, ihne, ihv⟩ := ih (n / 10) hrec
      have hd : (digitChar (n % 10)).toNat = 48 + n % 10 :=
        digitChar_toNat _ (Nat.mod_lt _ (by omega))
      refine ⟨?_, by simp [he], ?_⟩
      · intro c hc
        rw [he] at hc
        rcases List.mem_append.mp hc with hm | hm
        · exact ihd c hm
        · simp at hm
          subst hm
          omega
      · intro acc
        rw [he]
        rw [List.map_append, List.foldl_append]
        rw [ihv acc]
        simp only [List.map, List.foldl, hd]
        rw [List.length_append]
        simp only [List.length_singleton]
        calc (acc * 10 ^ (natDecimalAux f (n / 10)).length + n / 10) * 10 + (48 + n % 10 - 48)
            = acc * (10 ^ (natDecimalAux f (n / 10)).length * 10) + ((n / 10) * 10 + (48 + n % 10 - 48)) := by ring
        _ = acc * 10 ^ ((natDecimalAux f (n / 10)).length + 1) + n := by
            rw [← pow_succ]
            congr 1
            omega

theorem takeWhile_all_append {α : Type} (p : α → Bool) (xs ys : List α)
    (hxs : ∀ x ∈ xs, p x = true)
    (hys : ∀ y t, ys = y :: t → p y = false) :
    (xs ++ ys).takeWhile p = xs ∧ (xs ++ ys).dropWhile p = ys := by
  induction xs with
  | nil =>
    simp only [List.nil_append]
    cases ys with
    | nil => simp
    | cons y t =>
      have := hys y t rfl
      simp [List.takeWhile, List.dropWhile, this]
  | cons x xs ih =>
    have hx : p x = true := hxs x (by simp)
    obtain ⟨h1, h2⟩ := ih (fun a ha => hxs a (by simp [ha]))
    simp [List.takeWhile, List.dropWhile, hx, h1, h2]

theorem natDecimal_codes_spec (n : Nat) :
    (∀ c ∈ (natDecimal n).map Char.toNat, (48 ≤ c && c ≤ 57) = true) ∧
    ((natDecimal n).map Char.toNat ≠ []) ∧
    (((natDecimal n).map Char.toNat).foldl (fun a d => a * 10 + (d - 48)) 0 = n) := by
  obtain ⟨hd, hne, hv⟩ := natDecimalAux_spec (n + 1) n (by omega)
  refine ⟨?_, by simpa using hne, ?_⟩
  · intro c hc
    rcases List.mem_map.mp hc with ⟨ch, hch, hcc⟩
    obtain ⟨hl, hr⟩ := hd ch hch
    subst hcc
    simp
    omega
  · have := hv 0
    simpa using this

theorem parseNatCodes_roundtrip (n : Nat) (rest : List Nat)
    (hrest : ∀ y t, rest = y :: t → (48 ≤ y && y ≤ 57) = false) :
    parseNatCodes ((natDecimal n).map Char.toNat ++ rest) = some (n, rest) := by
  obtain ⟨hd, hne, hv⟩ := natDecimal_codes_spec n
  obtain ⟨ht, hdr⟩ := takeWhile_all_append (fun m => 48 ≤ m && m ≤ 57) _ rest hd hrest
  unfold parseNatCodes
  simp only [ht, hdr]
  rw [if_neg hne, hv]

theorem b64Val_b64Char (i : Nat) (h : i < 64) : b64Val (b64Char i) = some i := by
  interval_cases i <;> decide

theorem b64Char_ne_eq (i : Nat) (h : i < 64) : b64Char i ≠ '=' := by
  interval_cases i <;> decide

theorem b64_roundtrip : ∀ k bs, bs.length ≤ k → (∀ b ∈ bs, b < 256) →
    b64decodeChars (b64encodeBytes bs) = some bs := by
  intro k
  induction k with
  | zero =>
    intro bs hl _
    have : bs = [] := List.length_eq_zero.mp (by omega)
    subst this
    rfl
  | succ k ih =>
    intro bs hl hb
    rcases bs with _ | ⟨b1, _ | ⟨b2, _ | ⟨b3, rest⟩⟩⟩
    · rfl
    · have h1 : b1 < 256 := hb b1 (by simp)
      show b64decodeChars [b64Char (b1 / 4), b64Char (b1 % 4 * 16), '=', '='] = _
      simp only [b64decodeChars, b64Val_b64Char (b1 / 4) (by omega),
        b64Val_b64Char (b1 % 4 * 16) (by omega)]
      simp
      omega
    · have h1 : b1 < 256 := hb b1 (by simp)
      have h2 : b2 < 256 := hb b2 (by simp)
      show b64decodeChars [b64Char (b1 / 4), b64Char (b1 % 4 * 16 + b2 / 16),
        b64Char (b2 % 16 * 4), '='] = _
      simp only [b64decodeChars, b64Val_b64Char (b1 / 4) (by omega),
        b64Val_b64Char (b1 % 4 * 16 + b2 / 16) (by omega),
        b64Val_b64Char (b2 % 16 * 4) (by omega),
        if_neg (b64Char_ne_eq (b2 % 16 * 4) (by omega))]
      simp
      constructor <;> omega
    · have h1 : b1 < 256 := hb b1 (by simp)
      have h2 : b2 < 256 := hb b2 (by simp)
      have h3 : b3 < 256 := hb b3 (by simp)
      show b64decodeChars (b64Char (b1 / 4) :: b64Char (b1 % 4 * 16 + b2 / 16) ::
        b64Char (b2 % 16 * 4 + b3 / 64) :: b64Char (b3 % 64) :: b64encodeBytes rest) = _
      simp only [b64decodeChars, b64Val_b64Char (b1 / 4) (by omega),
        b64Val_b64Char (b1 % 4 * 16 + b2 / 16) (by omega),
        b64Val_b64Char (b2 % 16 * 4 + b3 / 64) (by omega),
        b64Val_b64Char (b3 % 64) (by omega),
        if_neg (b64Char_ne_eq (b2 % 16 * 4 + b3 / 64) (by omega)),
        if_neg (b64Char_ne_eq (b3 % 64) (by omega)),
        ih rest (by simp at hl; omega) (fun x hx => hb x (by simp [hx]))]
      simp
      refine ⟨by omega, by omega, by omega⟩

theorem hexValCode_hexDigitL (x : Nat) (h : x < 16) :
    hexValCode ((hexDigitL x).toNat) = some x := by
  interval_cases x <;> decide

theorem jsonEscape_cons (c : Char) (cs : List Char) :
    jsonEscape (c :: cs) = jsonEscapeChar c ++ jsonEscape cs := rfl

theorem pjs_quote (r : List Nat) : parseJsonStringCodes (34 :: r) = some ([], r) := by
  rw [parseJsonStringCodes.eq_def]
  simp

theorem pjs_plain (c : Nat) (r : List Nat) (h34 : c ≠ 34) (h92 : c ≠ 92) :
    parseJsonStringCodes (c :: r)
      = (parseJsonStringCodes r).map (fun pr => (Char.ofNat c :: pr.1, pr.2)) := by
  rw [parseJsonStringCodes.eq_def]
  simp [h34, h92]

theorem pjs_esc (e : Nat) (ch : Char) (r : List Nat)
    (he : (e = 34 ∧ ch = '"') ∨ (e = 92 ∧ ch = '\\') ∨ (e = 98 ∧ ch = Char.ofNat 8) ∨
      (e = 116 ∧ ch = Char.ofNat 9) ∨ (e = 110 ∧ ch = Char.ofNat 10) ∨
      (e = 102 ∧ ch = Char.ofNat 12) ∨ (e = 114 ∧ ch = Char.ofNat 13)) :
    parseJsonStringCodes (92 :: e :: r)
      = (parseJsonStringCodes r).map (fun pr => (ch :: pr.1, pr.2)) := by
  rw [parseJsonStringCodes.eq_def]
  rcases he with ⟨he, hc⟩ | ⟨he, hc⟩ | ⟨he, hc⟩ | ⟨he, hc⟩ | ⟨he, hc⟩ | ⟨he, hc⟩ | ⟨he, hc⟩ <;>
    (subst he; subst hc; simp)

theorem pjs_unicode (h1 h2 h3 h4 : Nat) (x1 x2 x3 x4 : Nat) (r : List Nat)
    (e1 : hexValCode h1 = some x1) (e2 : hexValCode h2 = some x2)
    (e3 : hexValCode h3 = some x3) (e4 : hexValCode h4 = some x4) :
    parseJsonStringCodes (92 :: 117 :: h1 :: h2 :: h3 :: h4 :: r)
      = (parseJsonStringCodes r).map
          (fun pr => (Char.ofNat (x1 * 4096 + x2 * 256 + x3 * 16 + x4) :: pr.1, pr.2)) := by
  rw [parseJsonStringCodes.eq_def]
  simp [e1, e2, e3, e4]

set_option maxHeartbeats 1000000 in
theorem parseJsonString_roundtrip (cs : List Char) : ∀ rest : List Nat,
    parseJsonStringCodes ((jsonEscape cs).map Char.toNat ++ (34 :: rest))
      = some (cs, rest) := by
  induction cs with
  | nil =>
    intro rest
    exact pjs_quote rest
  | cons c cs ih =>
    intro rest
    rw [jsonEscape_cons, List.map_append, List.append_assoc]
    have e1 : ('\\' : Char).toNat = 92 := rfl
    have e2 : ('"' : Char).toNat = 34 := rfl
    have e3 : ('u' : Char).toNat = 117 := rfl
    have e4 : ('0' : Char).toNat = 48 := rfl
    have e5 : ('b' : Char).toNat = 98 := rfl
    have e6 : ('t' : Char).toNat = 116 := rfl
    have e7 : ('n' : Char).toNat = 110 := rfl
    have e8 : ('f' : Char).toNat = 102 := rfl
    have e9 : ('r' : Char).toNat = 114 := rfl
    unfold jsonEscapeChar
    split_ifs with h1 h2 h3 h4 h5 h6 h7 h8 <;>
      simp only [List.map_cons, List.map_nil, List.cons_append, List.nil_append,
        List.append_eq, e1, e2, e3, e4, e5, e6, e7, e8, e9]
    · subst h1
      rw [pjs_esc 34 '"' _ (Or.inl ⟨rfl, rfl⟩), ih rest]
      rfl
    · subst h2
      rw [pjs_esc 92 '\\' _ (Or.inr (Or.inl ⟨rfl, rfl⟩)), ih rest]
      rfl
    · rw [pjs_esc 98 (Char.ofNat 8) _ (by tauto), ih rest]
      have hc : Char.ofNat 8 = c := by rw [← h3, Char.ofNat_toNat]
      rw [hc]
      rfl
    · rw [pjs_esc 116 (Char.ofNat 9) _ (by tauto), ih rest]
      have hc : Char.ofNat 9 = c := by rw [← h4, Char.ofNat_toNat]
      rw [hc]
      rfl
    · rw [pjs_esc 110 (Char.ofNat 10) _ (by tauto), ih rest]
      have hc : Char.ofNat 10 = c := by rw [← h5, Char.ofNat_toNat]
      rw [hc]
      rfl
    · rw [pjs_esc 102 (Char.ofNat 12) _ (by tauto), ih rest]
      have hc : Char.ofNat 12 = c := by rw [← h6, Char.ofNat_toNat]
      rw [hc]
      rfl
    · rw [pjs_esc 114 (Char.ofNat 13) _ (by tauto), ih rest]
      have hc : Char.ofNat 13 = c := by rw [← h7, Char.ofNat_toNat]
      rw [hc]
      rfl
    · rw [pjs_unicode 48 48 _ _ 0 0 (c.toNat / 16) (c.toNat % 16) _
        (by decide) (by decide)
        (hexValCode_hexDigitL _ (by omega)) (hexValCode_hexDigitL _ (by omega)),
        ih rest]
      have hval : 0 * 4096 + 0 * 256 + c.toNat / 16 * 16 + c.toNat % 16 = c.toNat := by
        omega
      rw [hval, Char.ofNat_toNat]
      rfl
    · rw [pjs_plain c.toNat _
        (fun hc => h1 (char_toNat_inj c '"' (by simpa using hc)))
        (fun hc => h2 (char_toNat_inj c '\\' (by simpa using hc))),
        ih rest]
      rw [Char.ofNat_toNat]
      rfl

theorem stripCodes_append (lit X : List Nat) : stripCodes lit (lit ++ X) = some X := by
  unfold stripCodes
  rw [if_pos (List.isPrefixOf_iff_prefix.mpr (List.prefix_append lit X))]
  rw [List.drop_left]

theorem stripCodes_null_quote (t : List Nat) :
    stripCodes (codesOf "null") (34 :: t) = none := by
  have : codesOf "null" = [110, 117, 108, 108] := rfl
  rw [this]
  simp [stripCodes, List.isPrefixOf]

theorem mk_data (s : String) : String.mk s.data = s := by
  cases s
  rfl

theorem nondigit_head (c : Nat) (hc : (48 ≤ c && c ≤ 57) = false) (t : List Nat) :
    ∀ y u, (c :: t : List Nat) = y :: u → (48 ≤ y && y ≤ 57) = false := by
  intro y u h
  injection h with h1 _
  subst h1
  exact hc

theorem parseJsonPayload_roundtrip (p : CursorPayload) :
    parseJsonPayloadCodes ((jsonOfPayload p).map Char.toNat) = some p := by
  obtain ⟨idv, key⟩ := p
  have c1 : codesOf "\x7b\"id\":" = 123 :: codesOf "\"id\":" := rfl
  have t1 : ('\x7b' : Char).toNat = 123 := rfl
  have t2 : ('\x7d' : Char).toNat = 125 := rfl
  have t3 : ('"' : Char).toNat = 34 := rfl
  cases key with
  | none =>
    have Hfull : (jsonOfPayload ⟨idv, none⟩).map Char.toNat
        = codesOf "\x7b\"id\":" ++ ((natDecimal idv).map Char.toNat ++
            (codesOf ",\"key\":" ++ (codesOf "null" ++ [125]))) := by
      show (('\x7b' :: ("\"id\":".data ++ natDecimal idv ++ ",\"key\":".data ++
        "null".data ++ ['\x7d'])).map Char.toNat) = _
      rw [c1]
      simp [codesOf, List.map_append, List.append_assoc, t1, t2]
    have hnd : ∀ y u, codesOf ",\"key\":" ++ (codesOf "null" ++ [125]) = y :: u →
        (48 ≤ y && y ≤ 57) = false := by
      have hs : codesOf ",\"key\":" ++ (codesOf "null" ++ [125])
          = 44 :: (codesOf "\"key\":" ++ (codesOf "null" ++ [125])) := rfl
      rw [hs]
      exact nondigit_head 44 (by decide) _
    rw [Hfull]
    simp only [parseJsonPayloadCodes, stripCodes_append,
      parseNatCodes_roundtrip idv _ hnd]
    rfl
  | some s =>
    have Hfull : (jsonOfPayload ⟨idv, some s⟩).map Char.toNat
        = codesOf "\x7b\"id\":" ++ ((natDecimal idv).map Char.toNat ++
            (codesOf ",\"key\":" ++ (34 :: ((jsonEscape s.data).map Char.toNat ++
              (34 :: [125]))))) := by
      show (('\x7b' :: ("\"id\":".data ++ natDecimal idv ++ ",\"key\":".data ++
        ('"' :: (jsonEscape s.data ++ ['"'])) ++ ['\x7d'])).map Char.toNat) = _
      rw [c1]
      simp [codesOf, List.map_append, List.append_assoc, t1, t2, t3]
    have hnd : ∀ y u, codesOf ",\"key\":" ++ (34 :: ((jsonEscape s.data).map Char.toNat ++
        (34 :: [125]))) = y :: u → (48 ≤ y && y ≤ 57) = false := by
      have hs : codesOf ",\"key\":" ++ (34 :: ((jsonEscape s.data).map Char.toNat ++
          (34 :: [125]))) = 44 :: (codesOf "\"key\":" ++ (34 :: ((jsonEscape s.data).map
            Char.toNat ++ (34 :: [125])))) := rfl
      rw [hs]
      exact nondigit_head 44 (by decide) _
    rw [Hfull]
    simp only [parseJsonPayloadCodes, stripCodes_append,
      parseNatCodes_roundtrip idv _ hnd, stripCodes_null_quote,
      parseJsonString_roundtrip]
    simp [mk_data]

theorem utf8BytesOf_lt256 (l : List Char) : ∀ b ∈ utf8BytesOf l, b < 256 := by
  induction l with
  | nil => simp [utf8BytesOf]
  | cons c cs ih =>
    intro b hb
    rcases List.mem_append.mp hb with hm | hm
    · exact utf8Bytes_lt256 _ (char_toNat_lt c) b hm
    · exact ih b hm

theorem b64encodeBytes_ne_nil (bs : List Nat) (h : bs ≠ []) : b64encodeBytes bs ≠ [] := by
  rcases bs with _ | ⟨b1, _ | ⟨b2, _ | ⟨b3, rest⟩⟩⟩ <;> simp_all [b64encodeBytes]

theorem utf8BytesOf_ne_nil (l : List Char) (h : l ≠ []) : utf8BytesOf l ≠ [] := by
  rcases l with _ | ⟨c, cs⟩
  · simp_all
  · rw [utf8BytesOf_cons]
    intro hc
    exact utf8Bytes_ne_nil c.toNat (List.append_eq_nil.mp hc).1

theorem decodeCursor_encodeCursor (r : CursorSrcRow) :
    decodeCursor (encodeCursor (some r))
      = some ⟨r.id, jsOrStr r.ends_at (jsOrStr r.published_at none)⟩ := by
  show decodeCursor (some (String.mk (b64encodeBytes (utf8BytesOf
    (jsonOfPayload ⟨r.id, jsOrStr r.ends_at (jsOrStr r.published_at none)⟩))))) = _
  set p : CursorPayload := ⟨r.id, jsOrStr r.ends_at (jsOrStr r.published_at none)⟩ with hp
  have hjne : jsonOfPayload p ≠ [] := by simp [jsonOfPayload]
  have hbne : utf8BytesOf (jsonOfPayload p) ≠ [] := utf8BytesOf_ne_nil _ hjne
  have hene : b64encodeBytes (utf8BytesOf (jsonOfPayload p)) ≠ [] :=
    b64encodeBytes_ne_nil _ hbne
  have hsne : String.mk (b64encodeBytes (utf8BytesOf (jsonOfPayload p))) ≠ "" := by
    intro hc
    apply hene
    have := congrArg String.data hc
    simpa using this
  have hdata : (String.mk (b64encodeBytes (utf8BytesOf (jsonOfPayload p)))).data
      = b64encodeBytes (utf8BytesOf (jsonOfPayload p)) := rfl
  simp only [decodeCursor, if_neg hsne, hdata,
    b64_roundtrip (utf8BytesOf (jsonOfPayload p)).length _ (le_refl _)
      (utf8BytesOf_lt256 _),
    utf8DecAll_roundtrip (jsonOfPayload p) _ (le_refl _)]
  exact parseJsonPayload_roundtrip p

/-- Claim C8: encoding returns null exactly when the input row is null and
otherwise base64-serializes the `{id, key}` pair taken from the row; decoding
recovers exactly the encoded pair for every well-formed (encoder-produced)
token and yields null on parse failure; and the list engine builds the same
query for a token that fails to decode as for no cursor at all — the query
starts from the beginning (no keyset bound), never an error. -/
theorem claim_C8_cursor_codec :
    (encodeCursor none = none) ∧
    (∀ r, encodeCursor (some r) ≠ none) ∧
    (∀ r, decodeCursor (encodeCursor (some r))
      = some ⟨r.id, jsOrStr r.ends_at (jsOrStr r.published_at none)⟩) ∧
    (∀ (p : RepoListParams) merchantId catIds tok,
      decodeCursor (some tok) = none →
      cursorQueryDesc p merchantId catIds (decodeCursor (some tok))
        = cursorQueryDesc p merchantId catIds none) ∧
    (∀ (p : RepoListParams) merchantId catIds,
      (cursorQueryDesc p merchantId catIds none).ltId = none) := by
  refine ⟨rfl, ?_, decodeCursor_encodeCursor, ?_, ?_⟩
  · intro r
    simp [encodeCursor]
  · intro p merchantId catIds tok h
    rw [h]
  · intro p merchantId catIds
    rfl

/-- Witness for claim C8: the malformed token `%%` fails to decode and the
engine builds the same query as with no cursor supplied. -/
theorem claim_C8_witness :
    cursorQueryDesc ⟨"", "all", "active", 1, 20⟩ none none (decodeCursor (some "%%"))
      = cursorQueryDesc ⟨"", "all", "active", 1, 20⟩ none none none :=
  claim_C8_cursor_codec.2.2.2.1 ⟨"", "all", "active", 1, 20⟩ none none "%%" (by decide)
